import Mathlib

/-!
Verification of the analyzer-orchestration and result-normalization pipeline
of an AI code-review service.  The Python modules
`app/utils/code_utils.py`, `app/utils/static_analyzer.py`,
`app/core/ai_engine.py`, `app/presenters/review_presenter.py` and
`app/models/review_model.py` are shallowly embedded below: pure functions
become Lean functions on `List Char` / `String` / `ℚ`, external effects
(process execution, network calls, `json.loads`) are abstracted as
explicit outcome parameters, and Python `float` scores are modelled as
exact rationals.
-/

/-! ## Rational score arithmetic (`code_utils.calculate_overall_score`) -/

/-- Python's `round(x, 2)` modelled on exact rationals: round `x * 100` to the
nearest integer and divide back.  (Python rounds ties to even on binary
floats; no value appearing in this development is a tie.) -/
def round2 (x : ℚ) : ℚ := (round (x * 100) : ℤ) / 100

/-- The `static_avg` subexpression of `calculate_overall_score`
(code_utils.py:317): the mean of the static scores, defaulting to 5.0 for an
empty list. -/
def static_mean (S : List ℚ) : ℚ := if S = [] then 5 else S.sum / S.length

/-- Embedding of `CodeUtils.calculate_overall_score` (code_utils.py:301-320):
`if not static_scores and ai_score == 0: return 5.0`, otherwise the static
mean (default 5.0 when the list is empty) is weighted 60% against the AI
score at 40%, rounded to 2 decimal places. -/
def calculate_overall_score (static_scores : List ℚ) (ai_score : ℚ) : ℚ :=
  if static_scores = [] ∧ ai_score = 0 then 5
  else round2 (static_mean static_scores * (6/10) + ai_score * (4/10))

/-- The presenter's score plumbing (review_presenter.py:98-100): the AI score
passed to `calculate_overall_score` is `ai_result.score if ai_result else 5.0`. -/
def overall_score_pipeline (static_scores : List ℚ) (ai_score : Option ℚ) : ℚ :=
  calculate_overall_score static_scores
    (match ai_score with
     | some a => a
     | none => 5)

/-- Modelled from the spec: the overall-score formula as the specification
states it, `0.6 * mean(static_scores, default=5.0) + 0.4 * (ai_score if
present else 5.0)`, rounded to 2 decimal places.  Used only to compare the
code's aggregation against the spec's formula. -/
def specOverallScore (static_scores : List ℚ) (ai_score : Option ℚ) : ℚ :=
  round2 ((6/10) * static_mean static_scores
    + (4/10) * (match ai_score with
                | some a => a
                | none => 5))

lemma static_mean_cons (a : ℚ) (l : List ℚ) :
    static_mean (a :: l) = (a :: l).sum / (a :: l).length := by
  rw [static_mean, if_neg (by simp)]

lemma round2_eq_of (x : ℚ) (n : ℤ) (h : x * 100 = (n:ℚ)) : round2 x = (n:ℚ)/100 := by
  unfold round2; rw [h, round_intCast]

lemma round_mono' {x y : ℚ} (h : x ≤ y) : round x ≤ round y := by
  rw [round_eq, round_eq]
  exact Int.floor_mono (by linarith)

lemma round2_bounds {x lo hi : ℚ} (h0 : lo ≤ x) (h1 : x ≤ hi) :
    (round (lo * 100) : ℚ) / 100 ≤ round2 x ∧ round2 x ≤ (round (hi * 100) : ℚ) / 100 := by
  unfold round2
  constructor
  · have := round_mono' (mul_le_mul_of_nonneg_right h0 (by norm_num : (0:ℚ) ≤ 100))
    have hc : ((round (lo * 100) : ℤ) : ℚ) ≤ ((round (x * 100) : ℤ) : ℚ) := by exact_mod_cast this
    linarith
  · have := round_mono' (mul_le_mul_of_nonneg_right h1 (by norm_num : (0:ℚ) ≤ 100))
    have hc : ((round (x * 100) : ℤ) : ℚ) ≤ ((round (hi * 100) : ℤ) : ℚ) := by exact_mod_cast this
    linarith

lemma list_sum_nonneg {S : List ℚ} (h : ∀ s ∈ S, 0 ≤ s) : 0 ≤ S.sum := by
  induction S with
  | nil => simp
  | cons a t ih =>
      simp only [List.sum_cons]
      have ha := h a (by simp)
      have ht := ih (fun s hs => h s (by simp [hs]))
      linarith

lemma list_sum_le_card_mul {S : List ℚ} (h : ∀ s ∈ S, s ≤ 10) :
    S.sum ≤ 10 * S.length := by
  induction S with
  | nil => simp
  | cons a t ih =>
      simp only [List.sum_cons, List.length_cons]
      have ha := h a (by simp)
      have ht := ih (fun s hs => h s (by simp [hs]))
      push_cast
      linarith

lemma static_mean_bounds {S : List ℚ} (h : ∀ s ∈ S, 0 ≤ s ∧ s ≤ 10) :
    0 ≤ static_mean S ∧ static_mean S ≤ 10 := by
  by_cases hne : S = []
  · rw [static_mean, if_pos hne]; norm_num
  · rw [static_mean, if_neg hne]
    have hlen : (0:ℚ) < S.length := by
      have : 0 < S.length := List.length_pos.mpr hne
      exact_mod_cast this
    constructor
    · exact div_nonneg (list_sum_nonneg (fun s hs => (h s hs).1)) (le_of_lt hlen)
    · rw [div_le_iff₀ hlen]
      have := list_sum_le_card_mul (fun s hs => (h s hs).2)
      linarith

/-! ## Claim C1: the overall-score formula -/

/-- C1 (counterexample): the claim's formula fails on the code when the
static-score list is empty and the AI result is present with score 0: the
code's early branch returns the default 5.0 while the claimed formula
`0.6 * 5.0 + 0.4 * 0 = 3.0` gives 3.0. -/
theorem c1_overall_formula_counterexample :
    overall_score_pipeline [] (some 0) = 5 ∧
    specOverallScore [] (some 0) = 3 ∧
    overall_score_pipeline [] (some 0) ≠ specOverallScore [] (some 0) := by
  have h1 : overall_score_pipeline [] (some 0) = 5 := by
    show calculate_overall_score [] 0 = 5
    rw [calculate_overall_score, if_pos (by simp)]
  have h2 : specOverallScore [] (some 0) = 3 := by
    rw [specOverallScore]
    rw [round2_eq_of _ 300 (by norm_num [static_mean])]
    norm_num
  exact ⟨h1, h2, by rw [h1, h2]; norm_num⟩

/-- C1 (amended): the aggregated overall score equals
`round2 (0.6 * mean(S, default 5) + 0.4 * (a if present else 5))` in every
case except `S = []` with an AI result of score exactly 0, where the code
short-circuits to the default 5.0; in particular `S = [8, 6]` with AI score 4
yields 5.8. -/
theorem c1_overall_formula_amended :
    (∀ (S : List ℚ) (a : Option ℚ), (S ≠ [] ∨ a ≠ some 0) →
      overall_score_pipeline S a = specOverallScore S a) ∧
    overall_score_pipeline [8, 6] (some 4) = 29/5 := by
  constructor
  · intro S a h
    unfold overall_score_pipeline calculate_overall_score specOverallScore
    rcases a with _ | a
    · simp only
      have h5 : ¬ (S = [] ∧ (5:ℚ) = 0) := by rintro ⟨_, h0⟩; norm_num at h0
      rw [if_neg h5]
      ring_nf
    · simp only
      have hcond : ¬ (S = [] ∧ a = 0) := by
        rintro ⟨h0, ha⟩
        rcases h with h | h
        · exact h h0
        · exact h (by rw [ha])
      rw [if_neg hcond]
      ring_nf
  · show calculate_overall_score [8, 6] 4 = 29/5
    rw [calculate_overall_score, if_neg (by simp)]
    rw [round2_eq_of _ 580 (by norm_num [static_mean_cons])]
    norm_num

/-- Witness for C1 (amended): at `S = [8, 6]`, `a = some 4` the hypothesis
`S ≠ []` holds and the formula gives 5.8. -/
theorem c1_overall_formula_amended_witness :
    overall_score_pipeline [8, 6] (some 4) = specOverallScore [8, 6] (some 4) ∧
    overall_score_pipeline [8, 6] (some 4) = 29/5 :=
  ⟨c1_overall_formula_amended.1 [8, 6] (some 4) (Or.inl (by simp)),
   c1_overall_formula_amended.2⟩

/-! ## Claim C8: no clamping in aggregation -/

/-- C8 (counterexample): an out-of-range constituent static score is not
clamped: `calculate_overall_score [20] 0 = 12`, outside the declared
`[0, 10]` range, so aggregation propagates rather than clamps. -/
theorem c8_no_clamping_counterexample :
    calculate_overall_score [20] 0 = 12 ∧ ¬ calculate_overall_score [20] 0 ≤ 10 := by
  have h : calculate_overall_score [20] 0 = 12 := by
    rw [calculate_overall_score, if_neg (by simp)]
    rw [round2_eq_of _ 1200 (by norm_num [static_mean_cons])]
    norm_num
  exact ⟨h, by rw [h]; norm_num⟩

/-- C8 (amended): aggregation performs no clamping; out-of-range constituent
scores propagate to the overall score (see the counterexample).  What does
hold is that for constituent scores already in `[0, 10]` — which the
pydantic field validators on `StaticAnalysisResult.score` and
`AIAnalysisResult.score` guarantee for every value reaching the presenter —
the overall score stays in `[0, 10]`. -/
theorem c8_in_range_scores_amended (S : List ℚ) (a : ℚ)
    (hS : ∀ s ∈ S, 0 ≤ s ∧ s ≤ 10) (ha0 : 0 ≤ a) (ha1 : a ≤ 10) :
    0 ≤ calculate_overall_score S a ∧ calculate_overall_score S a ≤ 10 := by
  unfold calculate_overall_score
  by_cases hcond : S = [] ∧ a = 0
  · rw [if_pos hcond]; norm_num
  · rw [if_neg hcond]
    have havgb := static_mean_bounds hS
    have hx0 : 0 ≤ static_mean S * (6/10) + a * (4/10) := by nlinarith [havgb.1, havgb.2]
    have hx1 : static_mean S * (6/10) + a * (4/10) ≤ 10 := by nlinarith [havgb.1, havgb.2]
    have hb := round2_bounds hx0 hx1
    have hr0 : (round ((0:ℚ) * 100) : ℚ) / 100 = 0 := by norm_num
    have hr10 : (round ((10:ℚ) * 100) : ℚ) / 100 = 10 := by
      rw [show ((10:ℚ) * 100) = ((1000:ℤ):ℚ) by norm_num, round_intCast]
      norm_num
    constructor
    · calc (0:ℚ) = (round ((0:ℚ) * 100) : ℚ) / 100 := hr0.symm
        _ ≤ round2 (static_mean S * (6/10) + a * (4/10)) := hb.1
    · calc round2 (static_mean S * (6/10) + a * (4/10))
          ≤ (round ((10:ℚ) * 100) : ℚ) / 100 := hb.2
        _ = 10 := hr10

/-- Witness for C8 (amended): concrete in-range scores `[10], 0` give an
overall score in `[0, 10]`. -/
theorem c8_in_range_scores_amended_witness :
    0 ≤ calculate_overall_score [10] 0 ∧ calculate_overall_score [10] 0 ≤ 10 :=
  c8_in_range_scores_amended [10] 0
    (by intro s hs; simp at hs; simp [hs]) (by norm_num) (by norm_num)

/-! ## Python string primitives

Python `str` values are modelled as `List Char` (`Str`); the helpers below
mirror the exact library semantics the embedded code relies on
(`in`, `str.lower`, `str.strip`, `str.split`, `int(...)`). -/

abbrev Str := List Char

/-- Python's `\s` / `str.strip` whitespace, restricted to ASCII. -/
def pyIsSpace (c : Char) : Bool :=
  c == ' ' || c == '\t' || c == '\n' || c == '\r' || c == '\x0b' || c == '\x0c'

/-- `isPre n h`: `n` is a leading run of `h` (list-prefix test). -/
def isPre : Str → Str → Bool
  | [], _ => true
  | _ :: _, [] => false
  | a :: as, b :: bs => a == b && isPre as bs

/-- Python's substring test `needle in hay` (for nonempty needles). -/
def strHas (hay needle : Str) : Bool := hay.tails.any (fun t => isPre needle t)

/-- Python's `str.lower`, ASCII. -/
def pyLower (l : Str) : Str := l.map Char.toLower

/-- Python's `str.strip()`. -/
def pyStrip (l : Str) : Str :=
  ((l.dropWhile pyIsSpace).reverse.dropWhile pyIsSpace).reverse

/-- Python's `str.split(sep)` for a one-character separator (no limit). -/
def pySplitChar (sep : Char) : Str → List Str
  | [] => [[]]
  | c :: cs =>
    let r := pySplitChar sep cs
    if c == sep then [] :: r
    else
      match r with
      | g :: gs => (c :: g) :: gs
      | [] => [[c]]

/-- Python's `str.split(sep, maxsplit)` for a one-character separator. -/
def pySplitLimit (sep : Char) : Nat → Str → List Str
  | _, [] => [[]]
  | 0, l => [l]
  | n + 1, c :: cs =>
    if c == sep then [] :: pySplitLimit sep n cs
    else
      match pySplitLimit sep (n + 1) cs with
      | g :: gs => (c :: g) :: gs
      | [] => [[c]]

/-- Value of a nonempty all-digit run, else `none`. -/
def digitsVal (l : Str) : Option Nat :=
  if l ≠ [] ∧ l.all Char.isDigit then
    some (l.foldl (fun a c => 10 * a + (c.toNat - 48)) 0)
  else none

/-- Python's `int(s)` on a decimal string: surrounding whitespace and a
leading sign are accepted, anything else raises (`none` here).  (Python's
underscore digit grouping is not modelled; no input in this code uses it.) -/
def pyParseInt (l : Str) : Option Int :=
  match pyStrip l with
  | '-' :: ds => (digitsVal ds).map (fun n => -(n : Int))
  | '+' :: ds => (digitsVal ds).map (fun n => (n : Int))
  | ds => (digitsVal ds).map (fun n => (n : Int))

/-! ## Data model (`app/models/review_model.py`) -/

/-- `SeverityLevel` (review_model.py:13-18). -/
inductive SeverityLevel where
  | low
  | medium
  | high
  | critical
deriving DecidableEq

/-- `IssueType` (review_model.py:20-28). -/
inductive IssueType where
  | syntax_error
  | style_violation
  | logic_error
  | security_vulnerability
  | performance_issue
  | maintainability_issue
  | documentation_issue
deriving DecidableEq

/-- `CodeIssue` (review_model.py:43-52). -/
structure CodeIssue where
  type : IssueType
  severity : SeverityLevel
  line : Option Int := none
  column : Option Int := none
  message : String
  suggestion : Option String := none
  rule_id : Option String := none
  tool : Option String := none
deriving DecidableEq

/-- `StaticAnalysisResult` (review_model.py:77-82).  The pydantic model has
no `status` field; the summary string carries the outcome marker. -/
structure StaticAnalysisResult where
  tool : String
  issues : List CodeIssue
  score : ℚ
  summary : String
deriving DecidableEq

/-! ## Static analyzer (`app/utils/static_analyzer.py`)

External process execution is abstracted as a `ToolExec` outcome: the
subprocess call either times out (`subprocess.TimeoutExpired`), raises some
other exception, or completes with a captured stdout.  `json.loads` over a
tool's stdout is abstracted as an explicit parse oracle passed to the
runner (`none` models `json.JSONDecodeError`). -/

/-- The outcome of one `subprocess.run` invocation. -/
inductive ToolExec where
  | timedOut
  | failure (msg : String)
  | completed (stdout : String)

/-- One element of Pylint's JSON output array (the fields
`_run_pylint` reads). -/
structure PylintItem where
  type : String
  line : Option Int := none
  column : Option Int := none
  message : String := ""
  message_id : String := ""

/-- `StaticAnalyzer._map_pylint_type` (static_analyzer.py:281-290). -/
def map_pylint_type (t : String) : IssueType :=
  if t = "error" then .syntax_error
  else if t = "fatal" then .syntax_error
  else if t = "warning" then .style_violation
  else if t = "refactor" then .maintainability_issue
  else if t = "convention" then .style_violation
  else .style_violation

/-- `StaticAnalyzer._map_pylint_severity` (static_analyzer.py:292-301). -/
def map_pylint_severity (t : String) : SeverityLevel :=
  if t = "error" then .high
  else if t = "fatal" then .critical
  else if t = "warning" then .medium
  else if t = "refactor" then .low
  else if t = "convention" then .low
  else .medium

/-- The per-item score deduction of `_run_pylint`
(static_analyzer.py:126-132): `error`/`fatal` −2.0, `warning` −1.0,
`refactor` −0.5, anything else (including `convention`) −0. -/
def pylint_deduction (t : String) : ℚ :=
  if t = "error" ∨ t = "fatal" then 2
  else if t = "warning" then 1
  else if t = "refactor" then 1/2
  else 0

/-- The `CodeIssue` built for one Pylint JSON item
(static_analyzer.py:114-123). -/
def pylint_issue (it : PylintItem) : CodeIssue :=
  { type := map_pylint_type it.type
    severity := map_pylint_severity it.type
    line := it.line
    column := it.column
    message := it.message
    suggestion := some it.message
    rule_id := some it.message_id
    tool := some "pylint" }

/-- The score of `_run_pylint`'s JSON branch: start at 10.0, subtract the
per-item deduction, floor at 0.0 (`max(0.0, score)` at line 141). -/
def pylint_score (items : List PylintItem) : ℚ :=
  max 0 (10 - (items.map (fun it => pylint_deduction it.type)).sum)

/-- `StaticAnalyzer._parse_pylint_text_output` (static_analyzer.py:326-352):
line-oriented fallback when stdout is not JSON. -/
def parse_pylint_text_output (output : String) : List CodeIssue :=
  (pySplitChar '\n' output.toList).filterMap fun line =>
    if strHas line [':'] &&
        (["error", "warning", "refactor"].any fun kw =>
          strHas (pyLower line) kw.toList) then
      match pySplitLimit ':' 3 line with
      | _ :: p1 :: p2 :: p3 :: _ =>
        match pyParseInt p1 with
        | some n =>
          let issue_type := String.mk (pyStrip p2)
          let message := String.mk (pyStrip p3)
          some { type := map_pylint_type issue_type
                 severity := map_pylint_severity issue_type
                 line := some n
                 message := message
                 suggestion := some message
                 tool := some "pylint" }
        | none => none
      | _ => none
    else none

/-- `StaticAnalyzer._run_pylint` (static_analyzer.py:101-160), as a function
of the subprocess outcome and the `json.loads` oracle.  All exception paths
of the source return a neutral result; nothing escapes to the caller. -/
def run_pylint (jsonParse : String → Option (List PylintItem)) :
    ToolExec → StaticAnalysisResult
  | .timedOut =>
    { tool := "pylint", issues := [], score := 5
      summary := "Pylint analysis timed out" }
  | .failure msg =>
    { tool := "pylint", issues := [], score := 5
      summary := "Pylint analysis failed: " ++ msg }
  | .completed stdout =>
    if stdout = "" then
      { tool := "pylint", issues := [], score := max 0 10
        summary := "Pylint found 0 issues" }
    else
      match jsonParse stdout with
      | some items =>
        let issues := items.map pylint_issue
        { tool := "pylint", issues := issues, score := pylint_score items
          summary := "Pylint found " ++ toString issues.length ++ " issues" }
      | none =>
        let issues := parse_pylint_text_output stdout
        { tool := "pylint", issues := issues, score := max 0 10
          summary := "Pylint found " ++ toString issues.length ++ " issues" }

/-- One element of Bandit's `results` JSON array (the fields
`_run_bandit` reads). -/
structure BanditItem where
  issue_severity : String := "MEDIUM"
  line_number : Option Int := none
  issue_text : String := ""
  test_id : String := ""

/-- `StaticAnalyzer._map_bandit_severity` (static_analyzer.py:317-324). -/
def map_bandit_severity (s : String) : SeverityLevel :=
  if s = "HIGH" then .critical
  else if s = "MEDIUM" then .high
  else if s = "LOW" then .medium
  else .medium

/-- The per-item score deduction of `_run_bandit`
(static_analyzer.py:245-252): `HIGH` −3.0, `MEDIUM` −2.0, `LOW` −1.0,
anything else −0. -/
def bandit_deduction (s : String) : ℚ :=
  if s = "HIGH" then 3
  else if s = "MEDIUM" then 2
  else if s = "LOW" then 1
  else 0

/-- The `CodeIssue` built for one Bandit result item
(static_analyzer.py:234-242). -/
def bandit_issue (it : BanditItem) : CodeIssue :=
  { type := .security_vulnerability
    severity := map_bandit_severity it.issue_severity
    line := it.line_number
    message := it.issue_text
    suggestion := some it.issue_text
    rule_id := some it.test_id
    tool := some "bandit" }

/-- The score of `_run_bandit`'s JSON branch (floor at 0.0, line 260). -/
def bandit_score (items : List BanditItem) : ℚ :=
  max 0 (10 - (items.map (fun it => bandit_deduction it.issue_severity)).sum)

/-- Python's `str.split(needle)` for a multi-character separator. -/
def pySplitStr (needle : Str) : Str → List Str
  | [] => [[]]
  | c :: cs =>
    if needle ≠ [] && isPre needle (c :: cs) then
      [] :: pySplitStr needle ((c :: cs).drop needle.length)
    else
      match pySplitStr needle cs with
      | g :: gs => (c :: g) :: gs
      | [] => [[c]]
termination_by l => l.length
decreasing_by
  · rename_i h
    have hn : 0 < needle.length := by
      rcases needle with _ | ⟨n, ns⟩
      · simp at h
      · simp
    simp only [List.length_drop, List.length_cons]
    omega
  · simp

/-- `StaticAnalyzer._parse_bandit_text_output` (static_analyzer.py:381-403):
a line containing `>> Issue:` contributes one medium security issue whose
message is the stripped text between the marker and the next marker (Python's
`line.split('>> Issue:')[1].strip()`). -/
def parse_bandit_text_output (output : String) : List CodeIssue :=
  (pySplitChar '\n' output.toList).filterMap fun line =>
    if strHas line (">> Issue:".toList) then
      match pySplitStr (">> Issue:".toList) line with
      | _ :: p1 :: _ =>
        let issue_text := String.mk (pyStrip p1)
        some { type := .security_vulnerability
               severity := .medium
               message := issue_text
               suggestion := some issue_text
               tool := some "bandit" }
      | _ => none
    else none

/-- `StaticAnalyzer._run_bandit` (static_analyzer.py:221-279), as a function
of the subprocess outcome and the `json.loads` oracle. -/
def run_bandit (jsonParse : String → Option (List BanditItem)) :
    ToolExec → StaticAnalysisResult
  | .timedOut =>
    { tool := "bandit", issues := [], score := 5
      summary := "Bandit analysis timed out" }
  | .failure msg =>
    { tool := "bandit", issues := [], score := 5
      summary := "Bandit analysis failed: " ++ msg }
  | .completed stdout =>
    if stdout = "" then
      { tool := "bandit", issues := [], score := max 0 10
        summary := "Bandit found 0 security issues" }
    else
      match jsonParse stdout with
      | some items =>
        let issues := items.map bandit_issue
        { tool := "bandit", issues := issues, score := bandit_score items
          summary := "Bandit found " ++ toString issues.length ++ " security issues" }
      | none =>
        let issues := parse_bandit_text_output stdout
        { tool := "bandit", issues := issues, score := max 0 10
          summary := "Bandit found " ++ toString issues.length ++ " security issues" }

/-! ## Claims C4 and C5: per-tool scoring and failure policy -/

/-- Modelled from the spec: the claimed fixed per-severity score weights
(critical −3, high −2, medium −1, low −0.5), used only to compare against
the deductions the code actually applies. -/
def claimSeverityWeight : SeverityLevel → ℚ
  | .critical => 3
  | .high => 2
  | .medium => 1
  | .low => 1/2

lemma pylint_deduction_nonneg (t : String) : 0 ≤ pylint_deduction t := by
  unfold pylint_deduction
  split_ifs <;> norm_num

lemma bandit_deduction_nonneg (s : String) : 0 ≤ bandit_deduction s := by
  unfold bandit_deduction
  split_ifs <;> norm_num

lemma pylint_score_bounds (items : List PylintItem) :
    0 ≤ pylint_score items ∧ pylint_score items ≤ 10 := by
  unfold pylint_score
  refine ⟨le_max_left _ _, max_le (by norm_num) ?_⟩
  have : 0 ≤ (items.map (fun it => pylint_deduction it.type)).sum := by
    apply list_sum_nonneg
    intro s hs
    obtain ⟨it, _, rfl⟩ := List.mem_map.mp hs
    exact pylint_deduction_nonneg it.type
  linarith

lemma bandit_score_bounds (items : List BanditItem) :
    0 ≤ bandit_score items ∧ bandit_score items ≤ 10 := by
  unfold bandit_score
  refine ⟨le_max_left _ _, max_le (by norm_num) ?_⟩
  have : 0 ≤ (items.map (fun it => bandit_deduction it.issue_severity)).sum := by
    apply list_sum_nonneg
    intro s hs
    obtain ⟨it, _, rfl⟩ := List.mem_map.mp hs
    exact bandit_deduction_nonneg it.issue_severity
  linarith

lemma run_pylint_score_bounds (jp : String → Option (List PylintItem))
    (exec : ToolExec) :
    0 ≤ (run_pylint jp exec).score ∧ (run_pylint jp exec).score ≤ 10 := by
  rcases exec with _ | msg | stdout
  · simp [run_pylint]; norm_num
  · simp [run_pylint]; norm_num
  · rw [run_pylint]
    by_cases h0 : stdout = ""
    · rw [if_pos h0]; constructor <;> simp
    · rw [if_neg h0]
      rcases hj : jp stdout with _ | items
      · simp only; constructor <;> simp
      · simp only
        exact pylint_score_bounds items

lemma run_bandit_score_bounds (jb : String → Option (List BanditItem))
    (exec : ToolExec) :
    0 ≤ (run_bandit jb exec).score ∧ (run_bandit jb exec).score ≤ 10 := by
  rcases exec with _ | msg | stdout
  · simp [run_bandit]; norm_num
  · simp [run_bandit]; norm_num
  · rw [run_bandit]
    by_cases h0 : stdout = ""
    · rw [if_pos h0]; constructor <;> simp
    · rw [if_neg h0]
      rcases hj : jb stdout with _ | items
      · simp only; constructor <;> simp
      · simp only
        exact bandit_score_bounds items

/-- C4 (counterexample): the deduction weights are not the claimed
per-severity constants.  A single Pylint `fatal` finding maps to severity
`critical`, yet the tool deducts 2.0 (score 8.0), where the claimed
critical-weight −3 would give 7.0; and a `convention` finding maps to
severity `low` yet deducts nothing, where the claimed low-weight −0.5
would give 9.5. -/
theorem c4_severity_weights_counterexample :
    (run_pylint (fun _ => some [{ type := "fatal", message := "m" }])
        (.completed "out")).score = 8 ∧
    ((run_pylint (fun _ => some [{ type := "fatal", message := "m" }])
        (.completed "out")).issues.map CodeIssue.severity) = [SeverityLevel.critical] ∧
    (10 : ℚ) - claimSeverityWeight .critical = 7 ∧
    (8 : ℚ) ≠ 7 ∧
    (run_pylint (fun _ => some [{ type := "convention", message := "m" }])
        (.completed "out")).score = 10 ∧
    ((run_pylint (fun _ => some [{ type := "convention", message := "m" }])
        (.completed "out")).issues.map CodeIssue.severity) = [SeverityLevel.low] ∧
    (10 : ℚ) - claimSeverityWeight .low = 19/2 := by
  refine ⟨?_, by decide, by norm_num [claimSeverityWeight], by norm_num, ?_, by decide,
    by norm_num [claimSeverityWeight]⟩
  · show pylint_score [{ type := "fatal", message := "m" }] = 8
    rw [show pylint_score [{ type := "fatal", message := "m" }]
        = max 0 (10 - pylint_deduction "fatal") by simp [pylint_score]]
    rw [show pylint_deduction "fatal" = 2 from rfl]
    rw [show (10:ℚ) - 2 = 8 by norm_num]
    exact max_eq_right (by norm_num)
  · show pylint_score [{ type := "convention", message := "m" }] = 10
    rw [show pylint_score [{ type := "convention", message := "m" }]
        = max 0 (10 - pylint_deduction "convention") by simp [pylint_score]]
    rw [show pylint_deduction "convention" = 0 from rfl]
    rw [show (10:ℚ) - 0 = 10 by norm_num]
    exact max_eq_right (by norm_num)

/-- C4 (amended): each tool applies its own deduction table keyed on the
tool's native vocabulary, not the claimed unified-severity weights.  Pylint
deducts `error`/`fatal` −2, `warning` −1, `refactor` −0.5, `convention` −0;
Bandit deducts `HIGH` −3, `MEDIUM` −2, `LOW` −1 (which under Bandit's
severity mapping does agree with critical −3 / high −2 / medium −1).  The
rest of the claim holds: scores start at 10.0, are floored at 0.0, always
lie in `[0, 10]`, and are monotonically non-increasing as issues are
appended. -/
theorem c4_per_tool_score_amended :
    (∀ jp exec, 0 ≤ (run_pylint jp exec).score ∧ (run_pylint jp exec).score ≤ 10) ∧
    (∀ jb exec, 0 ≤ (run_bandit jb exec).score ∧ (run_bandit jb exec).score ≤ 10) ∧
    (∀ items more : List PylintItem, pylint_score (items ++ more) ≤ pylint_score items) ∧
    (∀ items more : List BanditItem, bandit_score (items ++ more) ≤ bandit_score items) ∧
    pylint_score [] = 10 ∧ bandit_score [] = 10 ∧
    (pylint_deduction "error" = 2 ∧ pylint_deduction "fatal" = 2 ∧
     pylint_deduction "warning" = 1 ∧ pylint_deduction "refactor" = 1/2 ∧
     pylint_deduction "convention" = 0) ∧
    (bandit_deduction "HIGH" = 3 ∧ bandit_deduction "MEDIUM" = 2 ∧
     bandit_deduction "LOW" = 1) := by
  refine ⟨run_pylint_score_bounds, run_bandit_score_bounds, ?_, ?_,
    by rw [show pylint_score [] = max 0 10 by simp [pylint_score]];
       exact max_eq_right (by norm_num),
    by rw [show bandit_score [] = max 0 10 by simp [bandit_score]];
       exact max_eq_right (by norm_num),
    ⟨rfl, rfl, rfl, rfl, rfl⟩, ⟨rfl, rfl, rfl⟩⟩
  · intro items more
    unfold pylint_score
    have h : 0 ≤ (more.map (fun it => pylint_deduction it.type)).sum := by
      apply list_sum_nonneg
      intro s hs
      obtain ⟨it, _, rfl⟩ := List.mem_map.mp hs
      exact pylint_deduction_nonneg it.type
    rw [List.map_append, List.sum_append]
    exact max_le_max le_rfl (by linarith)
  · intro items more
    unfold bandit_score
    have h : 0 ≤ (more.map (fun it => bandit_deduction it.issue_severity)).sum := by
      apply list_sum_nonneg
      intro s hs
      obtain ⟨it, _, rfl⟩ := List.mem_map.mp hs
      exact bandit_deduction_nonneg it.issue_severity
    rw [List.map_append, List.sum_append]
    exact max_le_max le_rfl (by linarith)

/-- C5 (confirmed): a timed-out tool run yields the neutral result —
score 5.0, no issues, a summary carrying the timed-out marker (the
`StaticAnalysisResult` model realizes the spec's `status` marker in its
summary text); any other execution failure yields the same neutral score
and empty issues with the failed marker; the two outcomes are
distinguishable, and the runner returns these values normally (every
exception path of `_run_pylint`/`_run_bandit` is caught and returns). -/
theorem c5_timeout_failure_neutral :
    (∀ jp, run_pylint jp .timedOut =
      { tool := "pylint", issues := [], score := 5
        summary := "Pylint analysis timed out" }) ∧
    (∀ jp msg, run_pylint jp (.failure msg) =
      { tool := "pylint", issues := [], score := 5
        summary := "Pylint analysis failed: " ++ msg }) ∧
    (∀ jb, run_bandit jb .timedOut =
      { tool := "bandit", issues := [], score := 5
        summary := "Bandit analysis timed out" }) ∧
    (∀ jb msg, run_bandit jb (.failure msg) =
      { tool := "bandit", issues := [], score := 5
        summary := "Bandit analysis failed: " ++ msg }) ∧
    (∀ jp msg, (run_pylint jp .timedOut).summary ≠
      (run_pylint jp (.failure msg)).summary) ∧
    (∀ jb msg, (run_bandit jb .timedOut).summary ≠
      (run_bandit jb (.failure msg)).summary) := by
  refine ⟨fun jp => rfl, fun jp msg => rfl, fun jb => rfl, fun jb msg => rfl, ?_, ?_⟩
  · intro jp msg h
    simp only [run_pylint] at h
    have h2 := congrArg String.data h
    rw [String.data_append] at h2
    have h3 := congrArg (fun l => l[16]?) h2
    simp at h3
  · intro jb msg h
    simp only [run_bandit] at h
    have h2 := congrArg String.data h
    rw [String.data_append] at h2
    have h3 := congrArg (fun l => l[16]?) h2
    simp at h3

/-! ## AI engine (`app/core/ai_engine.py`)

The engine returns plain dictionaries; they are modelled as the record
types below (string-valued severities and types, since the unified-enum
conversion happens later in the presenter).  Provider network calls are
abstracted as `Option (Except Unit AIResponse)` state: `none` = provider
not configured, `some (.error ())` = the configured provider's call raises
(network error, timeout), `some (.ok r)` = the call returned and its
response was recovered into `r` (recovery itself never fails, see
`parse_text_response`). -/

/-- One element of the engine's `issues` dict list. -/
structure AIIssueDict where
  type : String
  severity : String
  line : Option Int := none
  message : String
  suggestion : String
deriving DecidableEq

/-- One element of the engine's `suggestions` dict list. -/
structure AISuggestionDict where
  type : String
  description : String
  code : String
  reason : String
deriving DecidableEq

/-- One element of the engine's `security_concerns` dict list. -/
structure SecurityConcernDict where
  type : String
  severity : String
  description : String
  mitigation : String
deriving DecidableEq

/-- One element of the engine's `performance_notes` dict list. -/
structure PerformanceNoteDict where
  area : String
  issue : String
  suggestion : String
deriving DecidableEq

/-- The analysis dictionary every engine path returns
(score / issues / suggestions / security_concerns / performance_notes /
readability_score / maintainability_score / summary / raw_response). -/
structure AIResponse where
  score : ℚ
  issues : List AIIssueDict
  suggestions : List AISuggestionDict
  security_concerns : List SecurityConcernDict
  performance_notes : List PerformanceNoteDict
  readability_score : ℚ
  maintainability_score : ℚ
  summary : String
  raw_response : Option String := none
deriving DecidableEq

/-- The fixed performance issue dict of `_parse_text_response` and
`_get_fallback_suggestions` (ai_engine.py:215-221 and 271-277). -/
def fib_issue_dict : AIIssueDict :=
  { type := "performance_issue"
    severity := "high"
    line := some 3
    message := "Recursive Fibonacci has exponential time complexity O(2^n)"
    suggestion := "Use iterative approach or memoization for better performance" }

/-- The fixed iterative-rewrite suggestion dict (ai_engine.py:222-227 and
279-284). -/
def fib_iterative_suggestion : AISuggestionDict :=
  { type := "performance_optimization"
    description := "Replace recursive implementation with iterative approach"
    code := "def calculate_fibonacci(n):\n    if n <= 1:\n        return n\n    a, b = 0, 1\n    for _ in range(2, n + 1):\n        a, b = b, a + b\n    return b"
    reason := "Iterative approach has O(n) time complexity vs O(2^n) for recursive" }

/-- The memoization suggestion dict of `_get_fallback_suggestions`
(ai_engine.py:286-291). -/
def fib_memo_suggestion : AISuggestionDict :=
  { type := "memoization"
    description := "Add memoization to recursive function"
    code := "from functools import lru_cache\n\n@lru_cache(maxsize=None)\ndef calculate_fibonacci(n):\n    if n <= 1:\n        return n\n    return calculate_fibonacci(n-1) + calculate_fibonacci(n-2)"
    reason := "Memoization reduces time complexity to O(n) while keeping recursive structure" }

/-- The fixed performance note dict (ai_engine.py:228-232 and 293-297). -/
def fib_perf_note : PerformanceNoteDict :=
  { area := "algorithm_efficiency"
    issue := "Exponential time complexity"
    suggestion := "Use iterative or memoized approach" }

/-- The input-validation concern dict of `_parse_text_response`
(ai_engine.py:236-241). -/
def input_concern_textscan : SecurityConcernDict :=
  { type := "input_validation"
    severity := "medium"
    description := "No validation for negative numbers or large inputs"
    mitigation := "Add input validation and limits" }

/-- The input-validation concern dict of `_get_fallback_suggestions`
(ai_engine.py:301-306). -/
def input_concern_fallback : SecurityConcernDict :=
  { type := "input_validation"
    severity := "medium"
    description := "No validation for user input"
    mitigation := "Add try-catch block and input validation" }

/-- The input-validation suggestion dict of `_get_fallback_suggestions`
(ai_engine.py:308-313). -/
def input_validation_suggestion : AISuggestionDict :=
  { type := "input_validation"
    description := "Add proper input validation and error handling"
    code := "def main():\n    try:\n        number = int(input(\"Enter a number: \"))\n        if number < 0:\n            print(\"Please enter a non-negative number\")\n            return\n        if number > 1000:\n            print(\"Number too large, this may cause performance issues\")\n            return\n        result = calculate_fibonacci(number)\n        print(f\"The {number}th Fibonacci number is {result}\")\n    except ValueError:\n        print(\"Please enter a valid number\")\n    except Exception as e:\n        print(f\"An error occurred: {e}\")"
    reason := "Prevents crashes from invalid input and provides user feedback" }

/-- Accumulator for the line scan of `_parse_text_response`. -/
structure TextScanAcc where
  issues : List AIIssueDict := []
  suggestions : List AISuggestionDict := []
  security_concerns : List SecurityConcernDict := []
  performance_notes : List PerformanceNoteDict := []

/-- The per-line body of `_parse_text_response`'s scan
(ai_engine.py:207-241): a stripped nonempty line with a performance keyword
adds the fixed Fibonacci issue/suggestion/note when the whole content
mentions `fibonacci` and the line mentions `recursive`; a line with a
security keyword adds the fixed input-validation concern. -/
def text_scan_line (contentLower : Str) (acc : TextScanAcc) (rawline : Str) :
    TextScanAcc :=
  let line := pyStrip rawline
  if line = [] then acc
  else
    let ll := pyLower line
    let acc1 :=
      if (["performance", "slow", "inefficient", "complexity", "recursive"].any
            fun kw => strHas ll kw.toList) then
        if strHas contentLower "fibonacci".toList && strHas ll "recursive".toList then
          { acc with
            issues := acc.issues ++ [fib_issue_dict]
            suggestions := acc.suggestions ++ [fib_iterative_suggestion]
            performance_notes := acc.performance_notes ++ [fib_perf_note] }
        else acc
      else acc
    if (["input", "validation", "security", "vulnerability"].any
          fun kw => strHas ll kw.toList) then
      { acc1 with security_concerns := acc1.security_concerns ++ [input_concern_textscan] }
    else acc1

/-- The heuristic text extractor of `AIEngine._parse_text_response`
(ai_engine.py:199-258): line scan plus the content-level score rule —
default 5, lowered to 3 exactly when the lowercased content contains both
`performance` and `recursive`. -/
def parse_text_heuristic (content : String) : AIResponse :=
  let cl := pyLower content.toList
  let acc := (pySplitChar '\n' content.toList).foldl (text_scan_line cl) {}
  { score := if strHas cl "performance".toList && strHas cl "recursive".toList then 3 else 5
    issues := acc.issues
    suggestions := acc.suggestions
    security_concerns := acc.security_concerns
    performance_notes := acc.performance_notes
    readability_score := 7
    maintainability_score := 6
    summary := if content.length > 500
      then String.mk (content.toList.take 500) ++ "..."
      else content
    raw_response := some content }

/-- The `re.search(r'\{.*\}', content, re.DOTALL)` step of
`_parse_text_response` (ai_engine.py:191): the greedy match runs from the
first `\x7b` to the last `\x7d` when these exist in that order. -/
def braceFragment (content : Str) : Option Str :=
  let pre := content.dropWhile (fun c => !(c == '{'))
  if pre = [] then none
  else
    let cut := pre.reverse.dropWhile (fun c => !(c == '}'))
    if cut = [] then none else some cut.reverse

/-- `AIEngine._parse_text_response` (ai_engine.py:185-258): try to
`json.loads` the brace-delimited fragment (the external JSON parser is the
`loads` oracle; `none` models `json.JSONDecodeError`), otherwise run the
heuristic extractor.  Every path returns a response — recovery never
fails. -/
def parse_text_response (loads : Str → Option AIResponse) (content : String) :
    AIResponse :=
  match braceFragment content.toList with
  | some frag =>
    match loads frag with
    | some r => r
    | none => parse_text_heuristic content
  | none => parse_text_heuristic content

/-- Python's `str.count` (non-overlapping occurrences). -/
def countOcc (needle : Str) : Str → Nat
  | [] => 0
  | c :: cs =>
    if needle ≠ [] && isPre needle (c :: cs) then
      1 + countOcc needle ((c :: cs).drop needle.length)
    else countOcc needle cs
termination_by l => l.length
decreasing_by
  · rename_i h
    have hn : 0 < needle.length := by
      rcases needle with _ | ⟨n, ns⟩
      · simp at h
      · simp
    simp only [List.length_drop, List.length_cons]
    omega
  · simp

/-- `AIEngine._get_fallback_suggestions` (ai_engine.py:260-325): the pure
heuristic analyzer over the code text.  For Python code it recognizes the
recursive-Fibonacci pattern (`fibonacci` in the lowercased code, `def` and
`return` present, more than one occurrence of `calculate_fibonacci`) and
the unvalidated-input pattern (`input(` and `int(` present); the score is
6 when any issue was found and 8 otherwise. -/
def get_fallback_suggestions (code language : String) : AIResponse :=
  let c := code.toList
  let isPython := pyLower language.toList = "python".toList
  let fib := strHas (pyLower c) "fibonacci".toList && strHas c "def".toList &&
    strHas c "return".toList && decide (countOcc "calculate_fibonacci".toList c > 1)
  let inputCheck := strHas c "input(".toList && strHas c "int(".toList
  let issues : List AIIssueDict :=
    if isPython ∧ fib then [fib_issue_dict] else []
  let suggestions : List AISuggestionDict :=
    (if isPython ∧ fib then [fib_iterative_suggestion, fib_memo_suggestion] else []) ++
    (if isPython ∧ inputCheck then [input_validation_suggestion] else [])
  let security_concerns : List SecurityConcernDict :=
    if isPython ∧ inputCheck then [input_concern_fallback] else []
  let performance_notes : List PerformanceNoteDict :=
    if isPython ∧ fib then [fib_perf_note] else []
  { score := if issues ≠ [] then 6 else 8
    issues := issues
    suggestions := suggestions
    security_concerns := security_concerns
    performance_notes := performance_notes
    readability_score := 7
    maintainability_score := 6
    summary := "Code analysis completed with specific suggestions for improvement."
    raw_response := some "Fallback analysis" }

/-- The provider-client state of `AIEngine` (set once in `__init__` from
the configured API keys). -/
structure AIEngineState where
  openai_client : Option (Except Unit AIResponse)
  cohere_client : Option (Except Unit AIResponse)
  anthropic_client : Option (Except Unit AIResponse)

/-- `AIEngine.analyze_code` (ai_engine.py:38-64): inside one `try`, the
first configured client in the order OpenAI, Cohere, Anthropic is called
and its result returned; with no client configured a `ValueError` is
raised.  The single `except` clause catches any exception — including a
raising provider call — and returns the fallback suggestions. -/
def analyze_code (st : AIEngineState) (code language : String) : AIResponse :=
  let attempt : Except Unit AIResponse :=
    match st.openai_client with
    | some r => r
    | none =>
      match st.cohere_client with
      | some r => r
      | none =>
        match st.anthropic_client with
        | some r => r
        | none => Except.error ()
  match attempt with
  | .ok r => r
  | .error _ => get_fallback_suggestions code language

/-- Modelled from the spec: the provider chain as the specification states
it — try configured providers strictly in priority order, skip one whose
call fails, return the first successful result, fall back to the heuristic
analyzer only when every configured provider failed.  Used only to compare
the code's chain against the spec's. -/
def specChainAnalyze (st : AIEngineState) (code language : String) : AIResponse :=
  match st.openai_client with
  | some (.ok r) => r
  | _ =>
    match st.cohere_client with
    | some (.ok r) => r
    | _ =>
      match st.anthropic_client with
      | some (.ok r) => r
      | _ => get_fallback_suggestions code language

/-! ## Claim C2: provider chain order -/

/-- A structured result as a second configured provider (Cohere) would
return it, used in the chain counterexample. -/
def cohere_ok_response : AIResponse :=
  { score := 9
    issues := []
    suggestions := []
    security_concerns := []
    performance_notes := []
    readability_score := 7
    maintainability_score := 6
    summary := "cohere structured result"
    raw_response := none }

/-- C2 (counterexample): with OpenAI configured but raising and Cohere
configured and succeeding, the engine returns the heuristic fallback — it
never tries Cohere — while the claimed chain would return Cohere's
result.  The claim's skip-to-next-provider behaviour fails on the code. -/
theorem c2_provider_chain_counterexample :
    analyze_code ⟨some (.error ()), some (.ok cohere_ok_response), none⟩ "x" "python"
      = get_fallback_suggestions "x" "python" ∧
    specChainAnalyze ⟨some (.error ()), some (.ok cohere_ok_response), none⟩ "x" "python"
      = cohere_ok_response ∧
    analyze_code ⟨some (.error ()), some (.ok cohere_ok_response), none⟩ "x" "python"
      ≠ specChainAnalyze ⟨some (.error ()), some (.ok cohere_ok_response), none⟩ "x" "python" := by
  refine ⟨rfl, rfl, ?_⟩
  intro h
  exact absurd (congrArg AIResponse.summary h) (by decide)

/-- C2 (amended): `analyze_code` consults only the highest-priority
configured provider (OpenAI before Cohere before Anthropic): if that
provider's call succeeds its parsed result is returned, and if it raises
the engine falls back directly to the heuristic fallback suggestions — the
remaining configured providers are never tried, and (parsing being total,
see `parse_text_response`) an unparseable response is recovered, not
skipped. -/
theorem c2_provider_chain_amended :
    (∀ (st : AIEngineState) (code language : String) (r : AIResponse),
      st.openai_client = some (.ok r) → analyze_code st code language = r) ∧
    (∀ (st : AIEngineState) (code language : String),
      st.openai_client = some (.error ()) →
        analyze_code st code language = get_fallback_suggestions code language) := by
  constructor
  · intro st code language r h
    simp only [analyze_code, h]
  · intro st code language h
    simp only [analyze_code, h]

/-- Witness for C2 (amended): a concrete state where OpenAI raises and a
concrete state where OpenAI succeeds. -/
theorem c2_provider_chain_amended_witness :
    analyze_code ⟨some (.error ()), some (.ok cohere_ok_response), none⟩ "x" "python"
      = get_fallback_suggestions "x" "python" ∧
    analyze_code ⟨some (.ok cohere_ok_response), none, none⟩ "x" "python"
      = cohere_ok_response :=
  ⟨c2_provider_chain_amended.2 ⟨some (.error ()), some (.ok cohere_ok_response), none⟩
      "x" "python" rfl,
   c2_provider_chain_amended.1 ⟨some (.ok cohere_ok_response), none, none⟩
      "x" "python" cohere_ok_response rfl⟩

/-! ## Claim C3: the fallback path is total -/

/-- Every configured provider's call fails (also covers "no provider
configured", where the conditions hold vacuously). -/
def AllConfiguredFail (st : AIEngineState) : Prop :=
  (∀ r, st.openai_client = some r → r = .error ()) ∧
  (∀ r, st.cohere_client = some r → r = .error ()) ∧
  (∀ r, st.anthropic_client = some r → r = .error ())

lemma ite_disj {c : Prop} [Decidable c] (a b : ℚ) :
    (if c then a else b) = a ∨ (if c then a else b) = b := by
  split
  · exact Or.inl rfl
  · exact Or.inr rfl

/-- C3 (confirmed): when no provider is configured or every configured
provider's call fails, `analyze_code` returns the pure heuristic fallback
result for any code and language — a total function of the code text with
score 6 or 8 (never a failure value; `AIAnalysisResult` carries no status
field, and the result is marked as a normal fallback analysis by its
`raw_response`). -/
theorem c3_fallback_always_returns (st : AIEngineState) (code language : String)
    (h : AllConfiguredFail st) :
    analyze_code st code language = get_fallback_suggestions code language ∧
    ((get_fallback_suggestions code language).score = 6 ∨
     (get_fallback_suggestions code language).score = 8) ∧
    (get_fallback_suggestions code language).raw_response = some "Fallback analysis" := by
  obtain ⟨h1, h2, h3⟩ := h
  refine ⟨?_, ite_disj 6 8, rfl⟩
  unfold analyze_code
  rcases ho : st.openai_client with _ | r
  · rcases hc : st.cohere_client with _ | r
    · rcases ha : st.anthropic_client with _ | r
      · rfl
      · rw [h3 r ha]
    · rw [h2 r hc]
  · rw [h1 r ho]

/-- Witness for C3: no provider configured, concrete input. -/
theorem c3_fallback_always_returns_witness :
    analyze_code ⟨none, none, none⟩ "print(1)" "python"
      = get_fallback_suggestions "print(1)" "python" ∧
    ((get_fallback_suggestions "print(1)" "python").score = 6 ∨
     (get_fallback_suggestions "print(1)" "python").score = 8) ∧
    (get_fallback_suggestions "print(1)" "python").raw_response
      = some "Fallback analysis" :=
  c3_fallback_always_returns ⟨none, none, none⟩ "print(1)" "python"
    (by refine ⟨?_, ?_, ?_⟩ <;> intro r h <;> exact nomatch h)

/-! ## Claim C6: the heuristic text extractor -/

/-- C6 (counterexample): unparseable free text containing both `recursive`
and `performance` but not mentioning `fibonacci` gets score 3 yet zero
issues — the performance issue is only synthesized when the response text
itself contains `fibonacci`, regardless of what the code under review
contains (the extractor never sees the code). -/
theorem c6_text_heuristic_counterexample :
    (parse_text_response (fun _ => none) "recursive performance").score = 3 ∧
    (parse_text_response (fun _ => none) "recursive performance").issues = [] := by
  constructor
  · rfl
  · decide

/-- C6 (amended): when a provider response has no brace-delimited fragment
or the fragment does not parse, the heuristic extractor runs; it assigns
score 5 by default, lowered to 3 exactly when the response text contains
both `performance` and `recursive`; the performance issue is emitted per
matching line only when the response text also contains `fibonacci` — so
free text mentioning `recursive`, `performance` and the fibonacci function
yields score 3 and a `performance_issue`-typed issue. -/
theorem c6_text_heuristic_amended :
    (∀ (loads : Str → Option AIResponse) (content : String),
      (braceFragment content.toList = none ∨ ∀ frag, loads frag = none) →
      parse_text_response loads content = parse_text_heuristic content) ∧
    (∀ content : String, (parse_text_heuristic content).score =
      if strHas (pyLower content.toList) "performance".toList &&
         strHas (pyLower content.toList) "recursive".toList then 3 else 5) ∧
    (parse_text_heuristic
      "The recursive calculate_fibonacci implementation has performance problems").score
        = 3 ∧
    ((parse_text_heuristic
      "The recursive calculate_fibonacci implementation has performance problems").issues.map
        AIIssueDict.type) = ["performance_issue"] := by
  refine ⟨?_, fun content => rfl, rfl, by decide⟩
  intro loads content h
  unfold parse_text_response
  rcases hb : braceFragment content.toList with _ | frag
  · rfl
  · rcases h with h | h
    · rw [hb] at h; exact absurd h (by simp)
    · simp only [h frag]

/-- Witness for C6 (amended): content with no brace fragment reduces to the
heuristic extractor. -/
theorem c6_text_heuristic_amended_witness :
    parse_text_response (fun _ => none) "plain text" = parse_text_heuristic "plain text" :=
  c6_text_heuristic_amended.1 (fun _ => none) "plain text" (Or.inl (by decide))

/-! ## Review presenter (`app/presenters/review_presenter.py`)

The presenter converts engine dictionaries into the pydantic models and
assembles the final response.  pydantic's string-to-enum coercion and the
`Field(ge=.., le=..)` range validators are modelled explicitly: a value
they reject makes the conversion return `Except.error`, which the
presenter's `try`/`except` turns into a dropped AI result. -/

/-- `ProgrammingLanguage` (review_model.py:30-41). -/
inductive ProgrammingLanguage where
  | python
  | javascript
  | typescript
  | java
  | cpp
  | c
  | go
  | rust
  | php
  | ruby
deriving DecidableEq

/-- `CodeSuggestion` (review_model.py:54-60). -/
structure CodeSuggestion where
  type : String
  description : String
  refactored_code : Option String := none
  reason : String
  confidence : ℚ := 8/10
deriving DecidableEq

/-- `SecurityConcern` (review_model.py:62-68). -/
structure SecurityConcern where
  type : String
  severity : SeverityLevel
  description : String
  mitigation : String
  cwe_id : Option String := none
deriving DecidableEq

/-- `PerformanceNote` (review_model.py:70-75). -/
structure PerformanceNote where
  area : String
  issue : String
  suggestion : String
  impact_level : String := "medium"
deriving DecidableEq

/-- `AIAnalysisResult` (review_model.py:84-94). -/
structure AIAnalysisResult where
  score : ℚ
  issues : List CodeIssue
  suggestions : List CodeSuggestion
  security_concerns : List SecurityConcern
  performance_notes : List PerformanceNote
  readability_score : ℚ
  maintainability_score : ℚ
  summary : String
  raw_response : Option String := none
deriving DecidableEq

/-- pydantic's coercion of a string onto the `SeverityLevel` str-enum. -/
def parseSeverity (s : String) : Option SeverityLevel :=
  if s = "low" then some .low
  else if s = "medium" then some .medium
  else if s = "high" then some .high
  else if s = "critical" then some .critical
  else none

/-- pydantic's coercion of a string onto the `IssueType` str-enum. -/
def parseIssueType (s : String) : Option IssueType :=
  if s = "syntax_error" then some .syntax_error
  else if s = "style_violation" then some .style_violation
  else if s = "logic_error" then some .logic_error
  else if s = "security_vulnerability" then some .security_vulnerability
  else if s = "performance_issue" then some .performance_issue
  else if s = "maintainability_issue" then some .maintainability_issue
  else if s = "documentation_issue" then some .documentation_issue
  else none

/-- `ReviewPresenter._convert_ai_issue` (review_presenter.py:257-266); a
type or severity string outside the enums is a pydantic `ValidationError`
(`Except.error`). -/
def convert_ai_issue (d : AIIssueDict) : Except Unit CodeIssue :=
  match parseIssueType d.type, parseSeverity d.severity with
  | some t, some s =>
    .ok { type := t, severity := s, line := d.line, message := d.message
          suggestion := some d.suggestion, tool := some "ai_engine" }
  | _, _ => .error ()

/-- `ReviewPresenter._convert_ai_suggestion` (review_presenter.py:268-276):
the engine dicts carry no `refactored_code` or `confidence` keys, so the
defaults `None` and 0.8 apply. -/
def convert_ai_suggestion (d : AISuggestionDict) : CodeSuggestion :=
  { type := d.type, description := d.description, refactored_code := none
    reason := d.reason, confidence := 8/10 }

/-- `ReviewPresenter._convert_security_concern` (review_presenter.py:278-286). -/
def convert_security_concern (d : SecurityConcernDict) : Except Unit SecurityConcern :=
  match parseSeverity d.severity with
  | some s =>
    .ok { type := d.type, severity := s, description := d.description
          mitigation := d.mitigation }
  | none => .error ()

/-- `ReviewPresenter._convert_performance_note` (review_presenter.py:288-295). -/
def convert_performance_note (d : PerformanceNoteDict) : PerformanceNote :=
  { area := d.area, issue := d.issue, suggestion := d.suggestion
    impact_level := "medium" }

/-- `ReviewPresenter._convert_ai_analysis` (review_presenter.py:243-255):
assembles `AIAnalysisResult`, whose pydantic `Field(ge=0, le=10)`
validators reject out-of-range scores (`Except.error`). -/
def convert_ai_analysis (d : AIResponse) : Except Unit AIAnalysisResult :=
  if 0 ≤ d.score ∧ d.score ≤ 10 ∧
     0 ≤ d.readability_score ∧ d.readability_score ≤ 10 ∧
     0 ≤ d.maintainability_score ∧ d.maintainability_score ≤ 10 then
    match d.issues.mapM convert_ai_issue,
          d.security_concerns.mapM convert_security_concern with
    | .ok issues, .ok concerns =>
      .ok { score := d.score
            issues := issues
            suggestions := d.suggestions.map convert_ai_suggestion
            security_concerns := concerns
            performance_notes := d.performance_notes.map convert_performance_note
            readability_score := d.readability_score
            maintainability_score := d.maintainability_score
            summary := d.summary
            raw_response := d.raw_response }
    | _, _ => .error ()
  else .error ()

/-- The focus-area line of `_generate_recommendations`'s loop body
(review_presenter.py:357-364): only `performance`, `readability` and
`security` produce a line; any other requested area is silently ignored. -/
def focus_line_of (area : String) : Option String :=
  if area = "performance" then some "Consider performance optimizations"
  else if area = "readability" then some "Improve code readability and documentation"
  else if area = "security" then some "Conduct thorough security review"
  else none

/-- One iteration of `_generate_recommendations`'s focus-area loop. -/
def focus_step (acc : List String) (area : String) : List String :=
  if area = "performance" then acc ++ ["Consider performance optimizations"]
  else if area = "readability" then acc ++ ["Improve code readability and documentation"]
  else if area = "security" then acc ++ ["Conduct thorough security review"]
  else acc

/-- `ReviewPresenter._generate_recommendations` (review_presenter.py:343-370):
critical-count line, then security-count line, then the requested focus-area
lines, then the apply-N-suggestions line, truncated to the first 5. -/
def generate_recommendations (issues : List CodeIssue)
    (suggestions : List CodeSuggestion) (focus_areas : Option (List String)) :
    List String :=
  let recommendations : List String := []
  let critical_issues := issues.filter (fun i => i.severity = .critical)
  let recommendations :=
    if critical_issues ≠ [] then
      recommendations ++
        ["Address " ++ toString critical_issues.length ++ " critical issues immediately"]
    else recommendations
  let security_issues := issues.filter (fun i => i.type = .security_vulnerability)
  let recommendations :=
    if security_issues ≠ [] then
      recommendations ++
        ["Review and fix " ++ toString security_issues.length ++ " security vulnerabilities"]
    else recommendations
  let recommendations :=
    match focus_areas with
    | some areas => areas.foldl focus_step recommendations
    | none => recommendations
  let recommendations :=
    if suggestions ≠ [] then
      recommendations ++
        ["Implement " ++ toString suggestions.length ++ " improvement suggestions"]
    else recommendations
  recommendations.take 5

/-- The critical-issues line as a (possibly empty) list. -/
def crit_line (issues : List CodeIssue) : List String :=
  if (issues.filter (fun i => i.severity = .critical)) ≠ [] then
    ["Address " ++ toString (issues.filter (fun i => i.severity = .critical)).length ++
      " critical issues immediately"]
  else []

/-- The security-issues line as a (possibly empty) list. -/
def sec_line (issues : List CodeIssue) : List String :=
  if (issues.filter (fun i => i.type = .security_vulnerability)) ≠ [] then
    ["Review and fix " ++
      toString (issues.filter (fun i => i.type = .security_vulnerability)).length ++
      " security vulnerabilities"]
  else []

/-- The recognized focus-area lines, in request order. -/
def focus_lines (focus_areas : Option (List String)) : List String :=
  (focus_areas.getD []).filterMap focus_line_of

/-- The apply-N-suggestions line as a (possibly empty) list. -/
def sugg_line (suggestions : List CodeSuggestion) : List String :=
  if suggestions ≠ [] then
    ["Implement " ++ toString suggestions.length ++ " improvement suggestions"]
  else []

/-! ## Claim C7: bounded, prioritized recommendations -/

lemma focus_step_eq (acc : List String) (area : String) :
    focus_step acc area = acc ++ (focus_line_of area).toList := by
  unfold focus_step focus_line_of
  split_ifs <;> simp

lemma foldl_focus_step (areas : List String) (acc : List String) :
    areas.foldl focus_step acc = acc ++ areas.filterMap focus_line_of := by
  induction areas generalizing acc with
  | nil => simp
  | cons a t ih =>
    rw [List.foldl_cons, ih, focus_step_eq, List.filterMap_cons]
    cases focus_line_of a <;> simp

/-- Modelled from the spec: the claim's recognized focus-area set
(security, performance, readability, maintainability, style,
documentation), used only to compare against the areas the code actually
recognizes. -/
def specRecognizedFocusAreas : List String :=
  ["security", "performance", "readability", "maintainability", "style", "documentation"]

/-- C7 (counterexample): `style` is in the claim's recognized set, yet a
request focused on `style` (with no issues or suggestions) produces no
recommendation line at all — the code's loop only recognizes
`performance`, `readability` and `security`. -/
theorem c7_recommendations_counterexample :
    "style" ∈ specRecognizedFocusAreas ∧
    generate_recommendations [] [] (some ["style"]) = [] := by
  constructor
  · simp [specRecognizedFocusAreas]
  · rfl

/-- C7 (amended): the recommendations list is always the first five of
critical-count line, then security-count line, then one line per requested
focus area from the set the code recognizes — `performance`, `readability`,
`security` only; `maintainability`, `style` and `documentation` are
silently ignored — then the apply-N-suggestions line; hence its length is
at most 5 and truncation keeps the highest-priority items. -/
theorem c7_recommendations_amended :
    ∀ (issues : List CodeIssue) (suggestions : List CodeSuggestion)
      (focus_areas : Option (List String)),
      (generate_recommendations issues suggestions focus_areas).length ≤ 5 ∧
      generate_recommendations issues suggestions focus_areas =
        (crit_line issues ++ sec_line issues ++ focus_lines focus_areas ++
          sugg_line suggestions).take 5 ∧
      focus_line_of "performance" = some "Consider performance optimizations" ∧
      focus_line_of "readability" = some "Improve code readability and documentation" ∧
      focus_line_of "security" = some "Conduct thorough security review" ∧
      focus_line_of "maintainability" = none ∧
      focus_line_of "style" = none ∧
      focus_line_of "documentation" = none := by
  intro issues suggestions fa
  have heq : generate_recommendations issues suggestions fa =
      (crit_line issues ++ sec_line issues ++ focus_lines fa ++
        sugg_line suggestions).take 5 := by
    rcases fa with _ | areas <;>
      by_cases h1 : issues.filter (fun i => i.severity = .critical) ≠ [] <;>
      by_cases h2 : issues.filter (fun i => i.type = .security_vulnerability) ≠ [] <;>
      by_cases h3 : suggestions ≠ [] <;>
      simp [generate_recommendations, crit_line, sec_line, sugg_line, focus_lines,
        foldl_focus_step, h1, h2, h3]
  refine ⟨?_, heq, rfl, rfl, rfl, rfl, rfl, rfl⟩
  rw [heq]
  exact List.length_take_le 5 _

/-! ## Single review and batch review -/

/-- `CodeUtils.generate_summary` (code_utils.py:335-362). -/
def generate_summary (issues : List CodeIssue) (suggestions : List CodeSuggestion)
    (score : ℚ) : String :=
  let total_issues := issues.length
  let critical_issues := (issues.filter (fun i => i.severity = .critical)).length
  let high_issues := (issues.filter (fun i => i.severity = .high)).length
  let band :=
    if score ≥ 8 then "Code quality is excellent"
    else if score ≥ 6 then "Code quality is good with minor improvements needed"
    else if score ≥ 4 then "Code quality needs improvement"
    else "Code quality requires significant attention"
  let issue_parts : List String :=
    if total_issues > 0 then
      ["Found " ++ toString total_issues ++ " issues"] ++
      (if critical_issues > 0 then
        ["including " ++ toString critical_issues ++ " critical issues"]
      else if high_issues > 0 then
        ["including " ++ toString high_issues ++ " high-priority issues"]
      else [])
    else []
  let suggestion_parts : List String :=
    if suggestions ≠ [] then
      ["Generated " ++ toString suggestions.length ++ " improvement suggestions"]
    else []
  String.intercalate ". " ([band] ++ issue_parts ++ suggestion_parts) ++ "."

/-- `CodeReviewRequest` (review_model.py:96-107).  (The `@validator`
functions at review_model.py:182-197 are defined at module level, outside
any model class, so pydantic never runs them; only the declared `Field`
constraints are active.) -/
structure CodeReviewRequest where
  code : String
  language : ProgrammingLanguage
  context : Option String := none
  file_name : Option String := none
  include_static_analysis : Bool := true
  include_ai_analysis : Bool := true
  focus_areas : Option (List String) := none

/-- `settings.MAX_FILE_SIZE_MB * 1024 * 1024` (config.py:46). -/
def maxFileBytes : Nat := 10 * 1024 * 1024

/-- The deterministic content of `CodeReviewResponse`
(review_model.py:109-132).  The environment-supplied metadata fields
(`review_id`, `timestamp`, `processing_time_ms`) carry no logic and are
omitted from the embedding. -/
structure CodeReviewResponse where
  language : ProgrammingLanguage
  file_name : Option String
  static_analysis : Option StaticAnalysisResult
  ai_analysis : Option AIAnalysisResult
  overall_score : ℚ
  total_issues : Nat
  critical_issues : Nat
  security_issues : Nat
  summary : String
  recommendations : List String
  tools_used : List String
deriving DecidableEq

/-- The outcomes of the two analyzer invocations inside one review:
`static_analyzer.analyze_code` either returns a result list or raises, and
`ai_engine.analyze_code` either returns its dictionary or raises.  (The
engine itself never raises — see C3 — but the presenter still wraps the
call, so the model keeps the error case.) -/
structure ReviewEnv where
  staticOutcome : Except Unit (List StaticAnalysisResult)
  aiOutcome : Except Unit AIResponse

/-- The `static_results` local of `review_code`
(review_presenter.py:61-72): the static analyzer's list on success, `[]`
when the call raises or static analysis was not requested. -/
def static_results_of (env : ReviewEnv) (include_static : Bool) :
    List StaticAnalysisResult :=
  if include_static then
    match env.staticOutcome with
    | .ok rs => rs
    | .error _ => []
  else []

/-- The `ai_result` local of `review_code` (review_presenter.py:74-89):
the converted AI analysis on success, `None` when the engine call or the
pydantic conversion raises or AI analysis was not requested. -/
def ai_result_of (env : ReviewEnv) (include_ai : Bool) :
    Option AIAnalysisResult :=
  if include_ai then
    match env.aiOutcome with
    | .ok d =>
      match convert_ai_analysis d with
      | .ok r => some r
      | .error _ => none
    | .error _ => none
  else none

/-- `ai_result.score if ai_result else 5.0` (review_presenter.py:99). -/
def ai_score_of : Option AIAnalysisResult → ℚ
  | some r => r.score
  | none => 5

/-- `_combine_issues` (review_presenter.py:297-309). -/
def all_issues_of (static_results : List StaticAnalysisResult)
    (ai_result : Option AIAnalysisResult) : List CodeIssue :=
  (static_results.foldl (fun acc r => acc ++ r.issues) []) ++
  (match ai_result with
   | some r => r.issues
   | none => [])

/-- The `overall_score` local of `review_code` (review_presenter.py:97-100). -/
def overall_of (env : ReviewEnv) (req : CodeReviewRequest) : ℚ :=
  calculate_overall_score
    ((static_results_of env req.include_static_analysis).map (fun r => r.score))
    (ai_score_of (ai_result_of env req.include_ai_analysis))

/-- `ReviewPresenter.review_code` (review_presenter.py:32-135), as a
function of the analyzer outcomes.  `_validate_review_request`
(review_presenter.py:235-241) raises on whitespace-only or oversized code;
analyzer exceptions are caught per analyzer (empty static results, dropped
AI result); finally the `CodeReviewResponse` construction itself raises a
pydantic `ValidationError` when `overall_score` leaves `[0, 10]`. -/
def review_code (env : ReviewEnv) (req : CodeReviewRequest) :
    Except String CodeReviewResponse :=
  if pyStrip req.code.toList = [] then .error "Code cannot be empty"
  else if req.code.length > maxFileBytes then
    .error "Code size exceeds maximum limit"
  else
    let static_results := static_results_of env req.include_static_analysis
    let ai_result := ai_result_of env req.include_ai_analysis
    let all_issues := all_issues_of static_results ai_result
    let all_suggestions :=
      match ai_result with
      | some r => r.suggestions
      | none => []
    let security_concerns :=
      match ai_result with
      | some r => r.security_concerns
      | none => []
    let overall_score := overall_of env req
    if 0 ≤ overall_score ∧ overall_score ≤ 10 then
      .ok { language := req.language
            file_name := req.file_name
            static_analysis := static_results.head?
            ai_analysis := ai_result
            overall_score := overall_score
            total_issues := all_issues.length
            critical_issues := (all_issues.filter (fun i => i.severity = .critical)).length
            security_issues := security_concerns.length
            summary := generate_summary all_issues all_suggestions overall_score
            recommendations := generate_recommendations all_issues all_suggestions req.focus_areas
            tools_used := static_results.map (fun r => r.tool) ++
              (match ai_result with
               | some _ => ["ai_engine"]
               | none => []) }
    else .error "overall_score out of range"

/-- One entry of a `BatchReviewRequest.files` list (review_model.py:134-142;
the dict keys `review_presenter.batch_review` reads at lines 157-164). -/
structure BatchFileData where
  code : String
  language : ProgrammingLanguage
  file_name : Option String := none
  context : Option String := none

/-- One iteration of `batch_review`'s loop: construct the individual
`CodeReviewRequest` — whose `Field(min_length=1)` on `code` raises for an
empty string — then run the review; any exception is caught by the loop. -/
def batch_item_review (env : ReviewEnv) (inc_s inc_a : Bool)
    (fa : Option (List String)) (f : BatchFileData) :
    Except String CodeReviewResponse :=
  if f.code = "" then .error "Code cannot be empty (min_length)"
  else
    review_code env
      { code := f.code, language := f.language, context := f.context
        file_name := f.file_name, include_static_analysis := inc_s
        include_ai_analysis := inc_a, focus_areas := fa }

/-- The counters of `BatchReviewResponse` the loop accumulates
(review_presenter.py:150-174). -/
structure BatchReviewOutcome where
  reviews : List CodeReviewResponse
  successful_reviews : Nat
  failed_reviews : Nat
deriving DecidableEq

/-- `ReviewPresenter.batch_review` (review_presenter.py:137-190): each
file is reviewed inside its own `try`; a success appends its response and
increments `successful_reviews`, a failure only increments
`failed_reviews` and the loop continues with the next file. -/
def batch_review (env : ReviewEnv) (inc_s inc_a : Bool)
    (fa : Option (List String)) (files : List BatchFileData) :
    BatchReviewOutcome :=
  files.foldl
    (fun acc f =>
      match batch_item_review env inc_s inc_a fa f with
      | .ok r =>
        { acc with reviews := acc.reviews ++ [r]
                   successful_reviews := acc.successful_reviews + 1 }
      | .error _ =>
        { acc with failed_reviews := acc.failed_reviews + 1 })
    ⟨[], 0, 0⟩

/-! ## Claim C9: isolated partial failure in batch review -/

lemma convert_ai_analysis_score_range {d : AIResponse} {r : AIAnalysisResult}
    (h : convert_ai_analysis d = .ok r) : 0 ≤ r.score ∧ r.score ≤ 10 := by
  unfold convert_ai_analysis at h
  split_ifs at h with hc
  · rcases h1 : d.issues.mapM convert_ai_issue with e | issues <;>
      rcases h2 : d.security_concerns.mapM convert_security_concern with e2 | concerns <;>
      rw [h1, h2] at h <;> simp only at h
    · exact nomatch h
    · exact nomatch h
    · exact nomatch h
    · cases h
      exact ⟨hc.1, hc.2.1⟩

lemma ai_result_score_range {env : ReviewEnv} {inc : Bool} {r : AIAnalysisResult}
    (h : ai_result_of env inc = some r) : 0 ≤ r.score ∧ r.score ≤ 10 := by
  unfold ai_result_of at h
  split_ifs at h
  · rcases ho : env.aiOutcome with e | d <;> rw [ho] at h <;> simp only at h
    · exact nomatch h
    · rcases hc : convert_ai_analysis d with e2 | r' <;> rw [hc] at h <;> simp only at h
      · exact nomatch h
      · cases h
        exact convert_ai_analysis_score_range hc

lemma overall_of_range (env : ReviewEnv) (req : CodeReviewRequest)
    (hstat : ∀ rs, env.staticOutcome = Except.ok rs → ∀ r ∈ rs, 0 ≤ r.score ∧ r.score ≤ 10) :
    0 ≤ overall_of env req ∧ overall_of env req ≤ 10 := by
  unfold overall_of
  apply c8_in_range_scores_amended
  · intro s hs
    obtain ⟨r, hr, rfl⟩ := List.mem_map.mp hs
    unfold static_results_of at hr
    split_ifs at hr
    · rcases ho : env.staticOutcome with e | rs <;> rw [ho] at hr <;> simp only at hr
      · exact nomatch hr
      · exact hstat rs ho r hr
    · exact nomatch hr
  · rcases ha : ai_result_of env req.include_ai_analysis with _ | r
    · simp [ai_score_of]
    · exact (ai_result_score_range ha).1
  · rcases ha : ai_result_of env req.include_ai_analysis with _ | r
    · simp only [ai_score_of]; norm_num
    · exact (ai_result_score_range ha).2

lemma review_code_ok (env : ReviewEnv) (req : CodeReviewRequest)
    (hstat : ∀ rs, env.staticOutcome = Except.ok rs → ∀ r ∈ rs, 0 ≤ r.score ∧ r.score ≤ 10)
    (h1 : ¬ pyStrip req.code.toList = []) (h2 : ¬ req.code.length > maxFileBytes) :
    ∃ r, review_code env req = .ok r := by
  unfold review_code
  rw [if_neg h1, if_neg h2, if_pos (overall_of_range env req hstat)]
  exact ⟨_, rfl⟩

lemma review_code_error_iff (env : ReviewEnv) (req : CodeReviewRequest)
    (hstat : ∀ rs, env.staticOutcome = Except.ok rs → ∀ r ∈ rs, 0 ≤ r.score ∧ r.score ≤ 10) :
    (review_code env req).toOption = none ↔
      (pyStrip req.code.toList = [] ∨ req.code.length > maxFileBytes) := by
  constructor
  · intro h
    by_contra hc
    push_neg at hc
    obtain ⟨r, hr⟩ := review_code_ok env req hstat hc.1 (by omega)
    rw [hr] at h
    simp [Except.toOption] at h
  · intro h
    unfold review_code
    rcases h with h | h
    · rw [if_pos h]; rfl
    · by_cases hs : pyStrip req.code.toList = []
      · rw [if_pos hs]; rfl
      · rw [if_neg hs, if_pos h]; rfl

lemma batch_item_none_iff (env : ReviewEnv) (inc_s inc_a : Bool)
    (fa : Option (List String)) (f : BatchFileData)
    (hstat : ∀ rs, env.staticOutcome = Except.ok rs → ∀ r ∈ rs, 0 ≤ r.score ∧ r.score ≤ 10) :
    (batch_item_review env inc_s inc_a fa f).toOption = none ↔
      (pyStrip f.code.toList = [] ∨ f.code.length > maxFileBytes) := by
  unfold batch_item_review
  by_cases h0 : f.code = ""
  · rw [if_pos h0]
    constructor
    · intro _
      left
      rw [h0]
      rfl
    · intro _
      rfl
  · rw [if_neg h0]
    exact review_code_error_iff env _ hstat

lemma batch_review_foldl (env : ReviewEnv) (inc_s inc_a : Bool)
    (fa : Option (List String)) :
    ∀ (files : List BatchFileData) (acc : BatchReviewOutcome),
      files.foldl
        (fun acc f =>
          match batch_item_review env inc_s inc_a fa f with
          | .ok r =>
            { acc with reviews := acc.reviews ++ [r]
                       successful_reviews := acc.successful_reviews + 1 }
          | .error _ =>
            { acc with failed_reviews := acc.failed_reviews + 1 }) acc =
      { reviews := acc.reviews ++
          files.filterMap (fun f => (batch_item_review env inc_s inc_a fa f).toOption)
        successful_reviews := acc.successful_reviews +
          (files.filterMap (fun f => (batch_item_review env inc_s inc_a fa f).toOption)).length
        failed_reviews := acc.failed_reviews +
          (files.length -
            (files.filterMap (fun f => (batch_item_review env inc_s inc_a fa f).toOption)).length) } := by
  intro files
  induction files with
  | nil => intro acc; simp
  | cons f t ih =>
    intro acc
    rw [List.foldl_cons]
    have hlen := List.length_filterMap_le
      (fun f => (batch_item_review env inc_s inc_a fa f).toOption) t
    rcases hf : batch_item_review env inc_s inc_a fa f with e | r
    · have ht : (batch_item_review env inc_s inc_a fa f).toOption = none := by
        rw [hf]; rfl
      simp only [hf]
      rw [ih, List.filterMap_cons_none (by exact ht)]
      simp only [BatchReviewOutcome.mk.injEq, List.length_cons]
      refine ⟨?_, ?_, ?_⟩ <;> first | trivial | omega
    · have ht : (batch_item_review env inc_s inc_a fa f).toOption = some r := by
        rw [hf]; rfl
      simp only [hf]
      rw [ih, List.filterMap_cons_some (by exact ht)]
      simp only [BatchReviewOutcome.mk.injEq, List.length_cons, List.append_assoc,
        List.singleton_append]
      refine ⟨?_, ?_, ?_⟩ <;> first | trivial | omega

lemma batch_failed_count (env : ReviewEnv) (inc_s inc_a : Bool)
    (fa : Option (List String))
    (hstat : ∀ rs, env.staticOutcome = Except.ok rs → ∀ r ∈ rs, 0 ≤ r.score ∧ r.score ≤ 10) :
    ∀ files : List BatchFileData,
      files.length -
        (files.filterMap (fun f => (batch_item_review env inc_s inc_a fa f).toOption)).length =
      (files.filter (fun f =>
        (pyStrip f.code.toList).isEmpty || decide (f.code.length > maxFileBytes))).length := by
  intro files
  induction files with
  | nil => simp
  | cons f t iht =>
    have hlent := List.length_filterMap_le
      (fun f => (batch_item_review env inc_s inc_a fa f).toOption) t
    rw [List.filterMap_cons, List.filter_cons]
    by_cases hv : pyStrip f.code.toList = [] ∨ f.code.length > maxFileBytes
    · have hnone : (batch_item_review env inc_s inc_a fa f).toOption = none :=
        (batch_item_none_iff env inc_s inc_a fa f hstat).mpr hv
      simp only [hnone]
      have hcond : ((pyStrip f.code.toList).isEmpty ||
          decide (f.code.length > maxFileBytes)) = true := by
        rcases hv with hv | hv
        · rw [hv]
          rfl
        · have h2 : decide (f.code.length > maxFileBytes) = true := by
            simpa using hv
          rw [h2, Bool.or_true]
      rw [if_pos hcond]
      simp only [List.length_cons]
      omega
    · push_neg at hv
      have hsome : (batch_item_review env inc_s inc_a fa f).toOption ≠ none := by
        intro hn
        rcases (batch_item_none_iff env inc_s inc_a fa f hstat).mp hn with h | h
        · exact hv.1 h
        · have := hv.2
          omega
      rcases ho : (batch_item_review env inc_s inc_a fa f).toOption with _ | r
      · exact absurd ho hsome
      · simp only [ho]
        have h1 : (pyStrip f.code.toList).isEmpty = false := by
          rcases hp : pyStrip f.code.toList with _ | ⟨c, cs⟩
          · exact absurd hp hv.1
          · rfl
        have h2 : decide (f.code.length > maxFileBytes) = false := by
          have := hv.2
          simp
          omega
        rw [if_neg (by rw [h1, h2]; simp)]
        simp only [List.length_cons]
        omega

/-- C9 (confirmed): samples in a batch are isolated — the returned reviews
are exactly the per-sample successes in order, `successful_reviews` counts
them, `successful_reviews + failed_reviews` always equals the number of
samples, and (for analyzer outcomes whose static scores respect the
declared `[0, 10]` range, as the pydantic-validated tool results do)
`failed_reviews` counts exactly the samples failing input validation; in
particular a batch of three samples whose second has empty code returns 2
reviews with `failed_reviews = 1`. -/
theorem c9_batch_partial_failure :
    (∀ (env : ReviewEnv) (inc_s inc_a : Bool) (fa : Option (List String))
       (files : List BatchFileData),
      (∀ rs, env.staticOutcome = Except.ok rs → ∀ r ∈ rs, 0 ≤ r.score ∧ r.score ≤ 10) →
      (batch_review env inc_s inc_a fa files).reviews =
        files.filterMap (fun f => (batch_item_review env inc_s inc_a fa f).toOption) ∧
      (batch_review env inc_s inc_a fa files).reviews.length =
        (batch_review env inc_s inc_a fa files).successful_reviews ∧
      (batch_review env inc_s inc_a fa files).successful_reviews +
        (batch_review env inc_s inc_a fa files).failed_reviews = files.length ∧
      (batch_review env inc_s inc_a fa files).failed_reviews =
        (files.filter (fun f =>
          (pyStrip f.code.toList).isEmpty || decide (f.code.length > maxFileBytes))).length) ∧
    ((batch_review ⟨.error (), .error ()⟩ true true none
        [⟨"print(1)", .python, none, none⟩, ⟨"", .python, none, none⟩,
         ⟨"x = 1", .python, none, none⟩]).reviews.length = 2 ∧
     (batch_review ⟨.error (), .error ()⟩ true true none
        [⟨"print(1)", .python, none, none⟩, ⟨"", .python, none, none⟩,
         ⟨"x = 1", .python, none, none⟩]).failed_reviews = 1) := by
  have hmain : ∀ (env : ReviewEnv) (inc_s inc_a : Bool) (fa : Option (List String))
      (files : List BatchFileData),
      (∀ rs, env.staticOutcome = Except.ok rs → ∀ r ∈ rs, 0 ≤ r.score ∧ r.score ≤ 10) →
      (batch_review env inc_s inc_a fa files).reviews =
        files.filterMap (fun f => (batch_item_review env inc_s inc_a fa f).toOption) ∧
      (batch_review env inc_s inc_a fa files).reviews.length =
        (batch_review env inc_s inc_a fa files).successful_reviews ∧
      (batch_review env inc_s inc_a fa files).successful_reviews +
        (batch_review env inc_s inc_a fa files).failed_reviews = files.length ∧
      (batch_review env inc_s inc_a fa files).failed_reviews =
        (files.filter (fun f =>
          (pyStrip f.code.toList).isEmpty || decide (f.code.length > maxFileBytes))).length := by
    intro env inc_s inc_a fa files hstat
    have hfold := batch_review_foldl env inc_s inc_a fa files ⟨[], 0, 0⟩
    have hb : batch_review env inc_s inc_a fa files =
        { reviews := files.filterMap (fun f => (batch_item_review env inc_s inc_a fa f).toOption)
          successful_reviews :=
            (files.filterMap (fun f => (batch_item_review env inc_s inc_a fa f).toOption)).length
          failed_reviews := files.length -
            (files.filterMap (fun f => (batch_item_review env inc_s inc_a fa f).toOption)).length } := by
      unfold batch_review
      rw [hfold]
      simp
    have hlen := List.length_filterMap_le
      (fun f => (batch_item_review env inc_s inc_a fa f).toOption) files
    refine ⟨by rw [hb], by rw [hb], by rw [hb]; simp; omega, ?_⟩
    rw [hb]
    exact batch_failed_count env inc_s inc_a fa hstat files
  have hfil : (([⟨"print(1)", .python, none, none⟩, ⟨"", .python, none, none⟩,
       ⟨"x = 1", .python, none, none⟩] : List BatchFileData).filter (fun f =>
        (pyStrip f.code.toList).isEmpty || decide (f.code.length > maxFileBytes))).length
      = 1 := by decide
  refine ⟨hmain, ?_, ?_⟩
  · obtain ⟨h1, h2, h3, h4⟩ := hmain ⟨.error (), .error ()⟩ true true none
      [⟨"print(1)", .python, none, none⟩, ⟨"", .python, none, none⟩,
       ⟨"x = 1", .python, none, none⟩]
      (fun rs h => nomatch h)
    have hfail := h4.trans hfil
    simp only [List.length_cons, List.length_nil] at h3
    omega
  · obtain ⟨h1, h2, h3, h4⟩ := hmain ⟨.error (), .error ()⟩ true true none
      [⟨"print(1)", .python, none, none⟩, ⟨"", .python, none, none⟩,
       ⟨"x = 1", .python, none, none⟩]
      (fun rs h => nomatch h)
    exact h4.trans hfil

/-- Witness for C9: the general isolation statement applied to a concrete
one-sample batch with failing analyzers. -/
theorem c9_batch_partial_failure_witness :
    (batch_review ⟨.error (), .error ()⟩ true true none
      [⟨"print(1)", ProgrammingLanguage.python, none, none⟩]).successful_reviews +
    (batch_review ⟨.error (), .error ()⟩ true true none
      [⟨"print(1)", ProgrammingLanguage.python, none, none⟩]).failed_reviews = 1 :=
  (c9_batch_partial_failure.1 ⟨.error (), .error ()⟩ true true none
    [⟨"print(1)", ProgrammingLanguage.python, none, none⟩]
    (fun rs h => nomatch h)).2.2.1

/-! ## C10: `sanitize_code` (code_utils.py:196-220) -/

-- ===== definitions =====

/-- The two quote characters of the sanitizer regexes (`["\']`). -/
def isQuoteC (c : Char) : Bool := c == '"' || c == '\''

/-- Identifiers for the five `sensitive_patterns` regexes of
`CodeUtils.sanitize_code` (code_utils.py:208-214), in list order. -/
inductive SensPat where
  | apikey
  | password
  | secret
  | token
  | key
deriving DecidableEq

/-- Case-insensitive literal matcher (`re.IGNORECASE` on an ASCII literal):
consumes the lowercase pattern `ps` from the front of the input, returning
the rest. -/
def matchLitCI : List Char → Str → Option Str
  | [], l => some l
  | _ :: _, [] => none
  | p :: ps, c :: cs => if c.toLower = p then matchLitCI ps cs else none

/-- The keyword part of each pattern (`api[_-]?key`, `password`, `secret`,
`token`, `key`).  The `[_-]?` option is decided by one character of
lookahead, which is exactly what the regex engine does here since `key`
cannot start with `_` or `-`. -/
def matchKw : SensPat → Str → Option Str
  | .apikey, l =>
    match matchLitCI ['a', 'p', 'i'] l with
    | some (c :: cs) =>
      if c == '_' || c == '-' then matchLitCI ['k', 'e', 'y'] cs
      else matchLitCI ['k', 'e', 'y'] (c :: cs)
    | some [] => none
    | none => none
  | .password, l => matchLitCI ['p', 'a', 's', 's', 'w', 'o', 'r', 'd'] l
  | .secret, l => matchLitCI ['s', 'e', 'c', 'r', 'e', 't'] l
  | .token, l => matchLitCI ['t', 'o', 'k', 'e', 'n'] l
  | .key, l => matchLitCI ['k', 'e', 'y'] l

/-- The shared tail of all five patterns: `\s*=\s*["\'][^"\']+["\']`.
Each greedy run is delimited by the next mandatory character class, so the
regex engine's backtracking never changes the outcome and the match is
deterministic. -/
def matchTail (l : Str) : Option Str :=
  match l.dropWhile pyIsSpace with
  | c :: l2 =>
    if c == '=' then
      match l2.dropWhile pyIsSpace with
      | q1 :: l4 =>
        if isQuoteC q1 then
          let inner := l4.takeWhile (fun c => !isQuoteC c)
          match l4.dropWhile (fun c => !isQuoteC c) with
          | q2 :: l6 =>
            if inner.isEmpty then none
            else if isQuoteC q2 then some l6 else none
          | [] => none
        else none
      | [] => none
    else none
  | [] => none

/-- Whether one of the five sanitizer regexes matches at the head of `l`;
returns the input remaining after the match. -/
def matchPat (p : SensPat) (l : Str) : Option Str :=
  match matchKw p l with
  | some l1 => matchTail l1
  | none => none

/-- The replacement text `***REDACTED***`. -/
def REDACTED : Str :=
  ['*', '*', '*', 'R', 'E', 'D', 'A', 'C', 'T', 'E', 'D', '*', '*', '*']

-- ===== length lemmas (for termination) =====

lemma matchLitCI_length {ps : List Char} {l r : Str}
    (h : matchLitCI ps l = some r) : r.length + ps.length ≤ l.length := by
  induction ps generalizing l with
  | nil =>
    simp only [matchLitCI, Option.some.injEq] at h
    subst h
    simp
  | cons p ps ih =>
    cases l with
    | nil => exact nomatch h
    | cons c cs =>
      simp only [matchLitCI] at h
      split_ifs at h with hc
      have := ih h
      simp only [List.length_cons]
      omega

lemma matchKw_length {p : SensPat} {l r : Str} (h : matchKw p l = some r) :
    r.length + 3 ≤ l.length := by
  cases p with
  | apikey =>
    simp only [matchKw] at h
    rcases h1 : matchLitCI ['a', 'p', 'i'] l with _ | l1 <;> rw [h1] at h
    · exact nomatch h
    · have hl1 := matchLitCI_length h1
      cases l1 with
      | nil => exact nomatch h
      | cons c cs =>
        simp only at h
        split_ifs at h with hc
        · have := matchLitCI_length h
          simp only [List.length_cons] at hl1 ⊢
          simp only [List.length_cons] at this ⊢
          omega
        · have := matchLitCI_length h
          simp only [List.length_cons] at hl1 this ⊢
          omega
  | password =>
    have := matchLitCI_length h
    simp only [List.length_cons, List.length_nil] at this
    omega
  | secret =>
    have := matchLitCI_length h
    simp only [List.length_cons, List.length_nil] at this
    omega
  | token =>
    have := matchLitCI_length h
    simp only [List.length_cons, List.length_nil] at this
    omega
  | key =>
    have := matchLitCI_length h
    simp only [List.length_cons, List.length_nil] at this
    omega

lemma length_dropWhile_le' {α : Type} (f : α → Bool) (l : List α) :
    (l.dropWhile f).length ≤ l.length :=
  (List.dropWhile_suffix f).length_le

lemma matchTail_length {l r : Str} (h : matchTail l = some r) :
    r.length + 3 ≤ l.length := by
  have hd1 : (l.dropWhile pyIsSpace).length ≤ l.length := length_dropWhile_le' pyIsSpace l
  unfold matchTail at h
  rcases h1 : l.dropWhile pyIsSpace with _ | ⟨c, l2⟩ <;> rw [h1] at h <;> simp only at h
  · exact nomatch h
  · rw [h1] at hd1
    have hd2 : (l2.dropWhile pyIsSpace).length ≤ l2.length := length_dropWhile_le' pyIsSpace l2
    rcases h2 : l2.dropWhile pyIsSpace with _ | ⟨q1, l4⟩ <;> rw [h2] at h <;> simp only at h
    · split_ifs at h
    · rw [h2] at hd2
      have hd3 : (l4.dropWhile (fun c => !isQuoteC c)).length ≤ l4.length :=
        length_dropWhile_le' _ l4
      rcases h3 : l4.dropWhile (fun c => !isQuoteC c) with _ | ⟨q2, l6⟩ <;> rw [h3] at h <;>
        simp only at h
      · split_ifs at h
      · rw [h3] at hd3
        split_ifs at h
        simp only [Option.some.injEq] at h
        subst h
        simp only [List.length_cons] at hd1 hd2 hd3
        omega

lemma matchPat_length {p : SensPat} {l r : Str} (h : matchPat p l = some r) :
    r.length + 6 ≤ l.length := by
  unfold matchPat at h
  rcases h1 : matchKw p l with _ | l1 <;> rw [h1] at h
  · exact nomatch h
  · have := matchKw_length h1
    have := matchTail_length h
    omega

/-- Model of `re.sub(pattern, '***REDACTED***', s)` for one of the five patterns:
leftmost-first scan, non-overlapping, the scan resuming after each
replaced span. -/
def pySub (p : SensPat) : Str → Str
  | [] => []
  | c :: cs =>
    match h : matchPat p (c :: cs) with
    | some r => REDACTED ++ pySub p r
    | none => c :: pySub p cs
termination_by l => l.length
decreasing_by
  · have := matchPat_length h
    simp only [List.length_cons] at this ⊢
    omega
  · simp

/-- Model of `CodeUtils.sanitize_code` (code_utils.py:196-220): the five
substitutions applied in the source's list order. -/
def sanitize_code (code : Str) : Str :=
  pySub .key (pySub .token (pySub .secret (pySub .password (pySub .apikey code))))

-- ===== character-class facts =====

lemma space_cases {c : Char} (h : pyIsSpace c = true) :
    c = ' ' ∨ c = '\t' ∨ c = '\n' ∨ c = '\r' ∨ c = '\x0b' ∨ c = '\x0c' := by
  simp only [pyIsSpace, Bool.or_eq_true, beq_iff_eq] at h
  tauto

lemma quote_cases {c : Char} (h : isQuoteC c = true) : c = '"' ∨ c = '\'' := by
  simp only [isQuoteC, Bool.or_eq_true, beq_iff_eq] at h
  exact h

lemma space_not_quote {c : Char} (h : pyIsSpace c = true) : isQuoteC c = false := by
  rcases space_cases h with rfl | rfl | rfl | rfl | rfl | rfl <;> rfl

lemma quote_not_space {c : Char} (h : isQuoteC c = true) : pyIsSpace c = false := by
  rcases quote_cases h with rfl | rfl <;> rfl

/-- The characters (lower-cased) that can occur in a keyword match. -/
def kwChars : List Char :=
  ['a', 'p', 'i', 'k', 'e', 'y', 's', 'w', 'o', 'r', 'd', 'c', 't', 'n', '_', '-']

lemma kwchar_not_quote {c : Char} (h : c.toLower ∈ kwChars) : isQuoteC c = false := by
  by_contra hq
  simp only [Bool.not_eq_false] at hq
  rcases quote_cases hq with rfl | rfl <;> exact absurd h (by decide)

lemma kwchar_not_star {c : Char} (h : c.toLower ∈ kwChars) : c ≠ '*' := by
  rintro rfl
  exact absurd h (by decide)

lemma kwchar_not_space {c : Char} (h : c.toLower ∈ kwChars) : pyIsSpace c = false := by
  by_contra hs
  simp only [Bool.not_eq_false] at hs
  rcases space_cases hs with rfl | rfl | rfl | rfl | rfl | rfl <;> exact absurd h (by decide)

lemma kwchar_not_eq {c : Char} (h : c.toLower ∈ kwChars) : c ≠ '=' := by
  rintro rfl
  exact absurd h (by decide)

-- ===== takeWhile / dropWhile helpers =====

lemma dropWhile_append_all {f : Char → Bool} {s : Str} (x : Str)
    (h : ∀ c ∈ s, f c = true) : (s ++ x).dropWhile f = x.dropWhile f := by
  induction s with
  | nil => rfl
  | cons a t ih =>
    have ha := h a (by simp)
    simp only [List.cons_append, List.dropWhile_cons, ha, if_true]
    exact ih (fun c hc => h c (by simp [hc]))

lemma dropWhile_cons_false {f : Char → Bool} {c : Char} (x : Str) (h : f c = false) :
    (c :: x).dropWhile f = c :: x := by
  simp [List.dropWhile_cons, h]

lemma takeWhile_append_stop {f : Char → Bool} {inner : Str} {q : Char} (r : Str)
    (hin : ∀ c ∈ inner, f c = true) (hq : f q = false) :
    (inner ++ q :: r).takeWhile f = inner ∧ (inner ++ q :: r).dropWhile f = q :: r := by
  induction inner with
  | nil => simp [List.takeWhile_cons, List.dropWhile_cons, hq]
  | cons a t ih =>
    have ha := hin a (by simp)
    obtain ⟨ih1, ih2⟩ := ih (fun c hc => hin c (by simp [hc]))
    constructor
    · simp only [List.cons_append, List.takeWhile_cons, ha, if_true, ih1]
    · simp only [List.cons_append, List.dropWhile_cons, ha, if_true, ih2]

-- ===== matchLitCI structural lemmas =====

lemma matchLitCI_append {ps : List Char} {l r : Str}
    (h : matchLitCI ps l = some r) (x : Str) :
    matchLitCI ps (l ++ x) = some (r ++ x) := by
  induction ps generalizing l with
  | nil =>
    simp only [matchLitCI, Option.some.injEq] at h ⊢
    rw [h]
  | cons p ps ih =>
    cases l with
    | nil => exact nomatch h
    | cons c cs =>
      simp only [matchLitCI] at h ⊢
      split_ifs at h ⊢ with hc
      exact ih h

lemma matchLitCI_split {ps : List Char} {l r : Str}
    (h : matchLitCI ps l = some r) :
    ∃ k, l = k ++ r ∧ matchLitCI ps k = some [] := by
  induction ps generalizing l with
  | nil =>
    simp only [matchLitCI, Option.some.injEq] at h
    exact ⟨[], by simp [h], rfl⟩
  | cons p ps ih =>
    cases l with
    | nil => exact nomatch h
    | cons c cs =>
      simp only [matchLitCI] at h
      split_ifs at h with hc
      obtain ⟨k, hk1, hk2⟩ := ih h
      refine ⟨c :: k, by simp [hk1], ?_⟩
      simp only [matchLitCI, hc, if_true]
      exact hk2

lemma matchLitCI_exact_append {ps : List Char} {k : Str}
    (h : matchLitCI ps k = some []) (x : Str) :
    matchLitCI ps (k ++ x) = some x := by
  have := matchLitCI_append h x
  simpa using this

lemma matchLitCI_chars {ps : List Char} {k : Str}
    (h : matchLitCI ps k = some []) : ∀ c ∈ k, ∃ d ∈ ps, c.toLower = d := by
  induction ps generalizing k with
  | nil =>
    simp only [matchLitCI, Option.some.injEq] at h
    subst h
    intro c hc
    exact absurd hc (by simp)
  | cons p ps ih =>
    cases k with
    | nil => exact fun c hc => absurd hc (by simp)
    | cons c0 cs =>
      simp only [matchLitCI] at h
      split_ifs at h with hc0
      intro c hc
      rcases List.mem_cons.mp hc with rfl | hmem
      · exact ⟨p, by simp, hc0⟩
      · obtain ⟨d, hd1, hd2⟩ := ih h c hmem
        exact ⟨d, by simp [hd1], hd2⟩

-- ===== keyword structural lemmas =====

/-- Keyword match: `k` is exactly a keyword match for pattern `p`. -/
def KwOk (p : SensPat) (k : Str) : Prop := matchKw p k = some []

lemma lower_k_not_dash {c : Char} (h : c.toLower = 'k') : (c == '_' || c == '-') = false := by
  by_contra hb
  simp only [Bool.not_eq_false, Bool.or_eq_true, beq_iff_eq] at hb
  rcases hb with rfl | rfl <;> exact absurd h (by decide)

lemma matchKw_append {p : SensPat} {k : Str} (h : KwOk p k) (x : Str) :
    matchKw p (k ++ x) = some x := by
  unfold KwOk at h
  cases p with
  | apikey =>
    simp only [matchKw] at h ⊢
    rcases h1 : matchLitCI ['a', 'p', 'i'] k with _ | l1 <;> rw [h1] at h
    · exact nomatch h
    · rw [matchLitCI_append h1 x]
      cases l1 with
      | nil => exact nomatch h
      | cons c cs =>
        simp only at h
        simp only [List.cons_append]
        split_ifs at h ⊢ with hc
        · exact matchLitCI_exact_append h x
        · exact matchLitCI_exact_append h x
  | password => exact matchLitCI_exact_append h x
  | secret => exact matchLitCI_exact_append h x
  | token => exact matchLitCI_exact_append h x
  | key => exact matchLitCI_exact_append h x

lemma matchKw_split {p : SensPat} {l r : Str} (h : matchKw p l = some r) :
    ∃ k, l = k ++ r ∧ KwOk p k := by
  cases p with
  | apikey =>
    simp only [matchKw] at h
    rcases h1 : matchLitCI ['a', 'p', 'i'] l with _ | l1 <;> rw [h1] at h
    · exact nomatch h
    · obtain ⟨k1, hk1, hk1e⟩ := matchLitCI_split h1
      cases l1 with
      | nil => exact nomatch h
      | cons c cs =>
        simp only at h
        split_ifs at h with hc
        · obtain ⟨k2, hk2, hk2e⟩ := matchLitCI_split h
          refine ⟨k1 ++ c :: k2, by simp [hk1, hk2], ?_⟩
          unfold KwOk
          simp only [matchKw]
          rw [show k1 ++ c :: k2 = k1 ++ (c :: k2) from rfl,
            matchLitCI_exact_append hk1e]
          simp only [hc, if_true]
          exact hk2e
        · obtain ⟨k2, hk2, hk2e⟩ := matchLitCI_split h
          refine ⟨k1 ++ k2, by rw [hk1, hk2, List.append_assoc], ?_⟩
          unfold KwOk
          simp only [matchKw]
          rw [matchLitCI_exact_append hk1e]
          have hk2ne : k2 ≠ [] := by
            intro h0
            rw [h0] at hk2e
            exact nomatch hk2e
          rcases k2 with _ | ⟨c2, cs2⟩
          · exact absurd rfl hk2ne
          · have hc2 : c2.toLower = 'k' := by
              simp only [matchLitCI] at hk2e
              split_ifs at hk2e with hk
              exact hk
            simp only
            rw [lower_k_not_dash hc2]
            simp only [Bool.false_eq_true, if_false]
            exact hk2e
  | password =>
    obtain ⟨k, hk1, hk2⟩ := matchLitCI_split h
    exact ⟨k, hk1, hk2⟩
  | secret =>
    obtain ⟨k, hk1, hk2⟩ := matchLitCI_split h
    exact ⟨k, hk1, hk2⟩
  | token =>
    obtain ⟨k, hk1, hk2⟩ := matchLitCI_split h
    exact ⟨k, hk1, hk2⟩
  | key =>
    obtain ⟨k, hk1, hk2⟩ := matchLitCI_split h
    exact ⟨k, hk1, hk2⟩

-- ===== tail structural lemmas =====

lemma matchTail_build {s1 s2 inner : Str} {q1 q2 : Char} (r : Str)
    (hs1 : ∀ c ∈ s1, pyIsSpace c = true) (hs2 : ∀ c ∈ s2, pyIsSpace c = true)
    (hq1 : isQuoteC q1 = true) (hq2 : isQuoteC q2 = true)
    (hin : inner ≠ []) (hinq : ∀ c ∈ inner, isQuoteC c = false) :
    matchTail (s1 ++ '=' :: (s2 ++ q1 :: (inner ++ q2 :: r))) = some r := by
  unfold matchTail
  rw [dropWhile_append_all _ hs1, dropWhile_cons_false _ (by rfl)]
  simp only [beq_self_eq_true, if_true]
  rw [dropWhile_append_all _ hs2, dropWhile_cons_false _ (quote_not_space hq1)]
  simp only [hq1, if_true]
  have hstop := @takeWhile_append_stop (fun c => !isQuoteC c) inner q2 r
    (fun c hc => by simp [hinq c hc]) (by simp [hq2])
  rw [hstop.1, hstop.2]
  simp [hq2, hin]

lemma matchTail_split {l r : Str} (h : matchTail l = some r) :
    ∃ s1 s2 q1 inner q2,
      (∀ c ∈ s1, pyIsSpace c = true) ∧ (∀ c ∈ s2, pyIsSpace c = true) ∧
      isQuoteC q1 = true ∧ isQuoteC q2 = true ∧
      inner ≠ [] ∧ (∀ c ∈ inner, isQuoteC c = false) ∧
      l = s1 ++ '=' :: (s2 ++ q1 :: (inner ++ q2 :: r)) := by
  unfold matchTail at h
  rcases h1 : l.dropWhile pyIsSpace with _ | ⟨c, l2⟩ <;> rw [h1] at h <;> simp only at h
  · exact nomatch h
  · rcases h2 : l2.dropWhile pyIsSpace with _ | ⟨q1, l4⟩ <;> rw [h2] at h <;> simp only at h
    · split_ifs at h
    · rcases h3 : l4.dropWhile (fun c => !isQuoteC c) with _ | ⟨q2, l6⟩ <;> rw [h3] at h <;>
        simp only at h
      · split_ifs at h
      · split_ifs at h with hc hq1 he hq2
        simp only [Option.some.injEq] at h
        subst h
        have hceq : c = '=' := by simpa using hc
        subst hceq
        refine ⟨l.takeWhile pyIsSpace, l2.takeWhile pyIsSpace, q1,
          l4.takeWhile (fun c => !isQuoteC c), q2, ?_, ?_, hq1, hq2, ?_, ?_, ?_⟩
        · exact fun c hc => List.mem_takeWhile_imp hc
        · exact fun c hc => List.mem_takeWhile_imp hc
        · intro h0
          rw [List.isEmpty_iff] at he
          exact he h0
        · intro c hc
          have := List.mem_takeWhile_imp hc
          simpa using this
        · conv_lhs => rw [← List.takeWhile_append_dropWhile (p := pyIsSpace) (l := l)]
          rw [h1]
          congr 1
          congr 1
          conv_lhs => rw [← List.takeWhile_append_dropWhile (p := pyIsSpace) (l := l2)]
          rw [h2]
          congr 1
          congr 1
          conv_lhs =>
            rw [← List.takeWhile_append_dropWhile (p := fun c => !isQuoteC c) (l := l4)]
          rw [h3]

-- ===== pattern structural lemmas =====

/-- Full match: `m` is exactly one full match of pattern `p`. -/
def IsMatch (p : SensPat) (m : Str) : Prop := matchPat p m = some []

lemma matchPat_build {p : SensPat} {k s1 s2 inner : Str} {q1 q2 : Char} (r : Str)
    (hk : KwOk p k)
    (hs1 : ∀ c ∈ s1, pyIsSpace c = true) (hs2 : ∀ c ∈ s2, pyIsSpace c = true)
    (hq1 : isQuoteC q1 = true) (hq2 : isQuoteC q2 = true)
    (hin : inner ≠ []) (hinq : ∀ c ∈ inner, isQuoteC c = false) :
    matchPat p (k ++ (s1 ++ '=' :: (s2 ++ q1 :: (inner ++ q2 :: r)))) = some r := by
  unfold matchPat
  rw [matchKw_append hk]
  exact matchTail_build r hs1 hs2 hq1 hq2 hin hinq

lemma matchPat_split {p : SensPat} {l r : Str} (h : matchPat p l = some r) :
    ∃ k s1 s2 q1 inner q2,
      KwOk p k ∧
      (∀ c ∈ s1, pyIsSpace c = true) ∧ (∀ c ∈ s2, pyIsSpace c = true) ∧
      isQuoteC q1 = true ∧ isQuoteC q2 = true ∧
      inner ≠ [] ∧ (∀ c ∈ inner, isQuoteC c = false) ∧
      l = k ++ (s1 ++ '=' :: (s2 ++ q1 :: (inner ++ q2 :: r))) := by
  unfold matchPat at h
  rcases h1 : matchKw p l with _ | l1 <;> rw [h1] at h
  · exact nomatch h
  · obtain ⟨k, hk1, hk2⟩ := matchKw_split h1
    obtain ⟨s1, s2, q1, inner, q2, hs1, hs2, hq1, hq2, hin, hinq, hl⟩ := matchTail_split h
    exact ⟨k, s1, s2, q1, inner, q2, hk2, hs1, hs2, hq1, hq2, hin, hinq, by rw [hk1, hl]⟩

lemma isMatch_parts {p : SensPat} {m : Str} (h : IsMatch p m) :
    ∃ k s1 s2 q1 inner q2,
      KwOk p k ∧
      (∀ c ∈ s1, pyIsSpace c = true) ∧ (∀ c ∈ s2, pyIsSpace c = true) ∧
      isQuoteC q1 = true ∧ isQuoteC q2 = true ∧
      inner ≠ [] ∧ (∀ c ∈ inner, isQuoteC c = false) ∧
      m = k ++ (s1 ++ '=' :: (s2 ++ q1 :: (inner ++ [q2]))) :=
  matchPat_split h

lemma isMatch_append {p : SensPat} {m : Str} (h : IsMatch p m) (x : Str) :
    matchPat p (m ++ x) = some x := by
  obtain ⟨k, s1, s2, q1, inner, q2, hk, hs1, hs2, hq1, hq2, hin, hinq, hm⟩ := isMatch_parts h
  rw [hm]
  have := matchPat_build (p := p) x hk hs1 hs2 hq1 hq2 hin hinq
  rw [← this]
  congr 1
  simp

lemma matchPat_eq_some_iff {p : SensPat} {l r : Str} :
    matchPat p l = some r ↔ ∃ m, l = m ++ r ∧ IsMatch p m := by
  constructor
  · intro h
    obtain ⟨k, s1, s2, q1, inner, q2, hk, hs1, hs2, hq1, hq2, hin, hinq, hl⟩ :=
      matchPat_split h
    refine ⟨k ++ (s1 ++ '=' :: (s2 ++ q1 :: (inner ++ [q2]))), ?_, ?_⟩
    · rw [hl]
      simp
    · unfold IsMatch
      exact matchPat_build [] hk hs1 hs2 hq1 hq2 hin hinq
  · rintro ⟨m, rfl, hm⟩
    exact isMatch_append hm r

lemma isMatch_ne_nil {p : SensPat} {m : Str} (h : IsMatch p m) : m ≠ [] := by
  obtain ⟨k, s1, s2, q1, inner, q2, hk, hs1, hs2, hq1, hq2, hin, hinq, hm⟩ := isMatch_parts h
  intro h0
  rw [h0] at hm
  have := congrArg List.length hm
  simp at this
  omega

lemma isMatch_last_quote {p : SensPat} {m : Str} (h : IsMatch p m) :
    ∃ m' q, m = m' ++ [q] ∧ isQuoteC q = true := by
  obtain ⟨k, s1, s2, q1, inner, q2, hk, hs1, hs2, hq1, hq2, hin, hinq, hm⟩ := isMatch_parts h
  refine ⟨k ++ s1 ++ '=' :: s2 ++ q1 :: inner, q2, ?_, hq2⟩
  rw [hm]
  simp

-- ===== pySub equations =====

lemma pySub_nil (p : SensPat) : pySub p [] = [] := by
  simp [pySub]

lemma pySub_cons_none {p : SensPat} {c : Char} {cs : Str}
    (h : matchPat p (c :: cs) = none) : pySub p (c :: cs) = c :: pySub p cs := by
  rw [pySub]
  split
  · rename_i r heq
    rw [h] at heq
    exact nomatch heq
  · rfl

lemma pySub_cons_some {p : SensPat} {c : Char} {cs r : Str}
    (h : matchPat p (c :: cs) = some r) : pySub p (c :: cs) = REDACTED ++ pySub p r := by
  rw [pySub]
  split
  · rename_i r' heq
    rw [h] at heq
    simp only [Option.some.injEq] at heq
    subst heq
    rfl
  · rename_i heq
    rw [h] at heq
    exact nomatch heq

-- ===== facts about the replacement text =====

lemma red_length : REDACTED.length = 14 := rfl

lemma red_no_quote : ∀ c ∈ REDACTED, isQuoteC c = false := by decide

lemma star_mem_red : '*' ∈ REDACTED := by decide

-- ===== keyword character facts =====

lemma kwOk_ne_nil {p : SensPat} {k : Str} (h : KwOk p k) : k ≠ [] := by
  have hl := matchKw_length h
  intro h0
  rw [h0] at hl
  simp at hl

lemma kwOk_chars {p : SensPat} {k : Str} (hk : KwOk p k) :
    ∀ c ∈ k, c.toLower ∈ kwChars := by
  cases p with
  | apikey =>
    have hk' : matchKw .apikey k = some [] := hk
    simp only [matchKw] at hk'
    rcases h1 : matchLitCI ['a', 'p', 'i'] k with _ | l1 <;> rw [h1] at hk'
    · exact nomatch hk'
    · cases l1 with
      | nil => exact nomatch hk'
      | cons c0 cs0 =>
        simp only at hk'
        obtain ⟨k1, hk1eq, hk1⟩ := matchLitCI_split h1
        split_ifs at hk' with hc0
        · intro c hc
          rw [hk1eq] at hc
          simp only [List.mem_append, List.mem_cons] at hc
          rcases hc with h | h | h
          · obtain ⟨d, hd, he⟩ := matchLitCI_chars hk1 c h
            rw [he]
            exact (show ∀ d ∈ ['a', 'p', 'i'], d ∈ kwChars by decide) d hd
          · subst h
            simp only [Bool.or_eq_true, beq_iff_eq] at hc0
            rcases hc0 with rfl | rfl <;> decide
          · obtain ⟨d, hd, he⟩ := matchLitCI_chars hk' c h
            rw [he]
            exact (show ∀ d ∈ ['k', 'e', 'y'], d ∈ kwChars by decide) d hd
        · intro c hc
          rw [hk1eq] at hc
          simp only [List.mem_append] at hc
          rcases hc with h | h
          · obtain ⟨d, hd, he⟩ := matchLitCI_chars hk1 c h
            rw [he]
            exact (show ∀ d ∈ ['a', 'p', 'i'], d ∈ kwChars by decide) d hd
          · obtain ⟨d, hd, he⟩ := matchLitCI_chars hk' c h
            rw [he]
            exact (show ∀ d ∈ ['k', 'e', 'y'], d ∈ kwChars by decide) d hd
  | password =>
    intro c hc
    obtain ⟨d, hd, he⟩ := matchLitCI_chars hk c hc
    rw [he]
    exact (show ∀ d ∈ ['p', 'a', 's', 's', 'w', 'o', 'r', 'd'], d ∈ kwChars by decide) d hd
  | secret =>
    intro c hc
    obtain ⟨d, hd, he⟩ := matchLitCI_chars hk c hc
    rw [he]
    exact (show ∀ d ∈ ['s', 'e', 'c', 'r', 'e', 't'], d ∈ kwChars by decide) d hd
  | token =>
    intro c hc
    obtain ⟨d, hd, he⟩ := matchLitCI_chars hk c hc
    rw [he]
    exact (show ∀ d ∈ ['t', 'o', 'k', 'e', 'n'], d ∈ kwChars by decide) d hd
  | key =>
    intro c hc
    obtain ⟨d, hd, he⟩ := matchLitCI_chars hk c hc
    rw [he]
    exact (show ∀ d ∈ ['k', 'e', 'y'], d ∈ kwChars by decide) d hd

lemma kwOk_not_quote {p : SensPat} {k : Str} (hk : KwOk p k) :
    ∀ c ∈ k, isQuoteC c = false :=
  fun c hc => kwchar_not_quote (kwOk_chars hk c hc)

-- ===== no pattern matches from inside the replacement text =====

lemma matchPat_none_head {q : SensPat} {c : Char} {l : Str}
    (ha : ¬ c.toLower = 'a') (hp : ¬ c.toLower = 'p') (hs : ¬ c.toLower = 's')
    (ht : ¬ c.toLower = 't') (hk : ¬ c.toLower = 'k') :
    matchPat q (c :: l) = none := by
  cases q <;> simp [matchPat, matchKw, matchLitCI, ha, hp, hs, ht, hk]

lemma matchPat_none_AC {q : SensPat} (l : Str) : matchPat q ('A' :: 'C' :: l) = none := by
  cases q <;> rfl

lemma matchPat_none_TE {q : SensPat} (l : Str) : matchPat q ('T' :: 'E' :: l) = none := by
  cases q <;> rfl

lemma red_drop_nomatch (q : SensPat) {i : ℕ} (hi : i < 14) (x : Str) :
    matchPat q (REDACTED.drop i ++ x) = none := by
  interval_cases i <;>
    simp only [REDACTED, List.drop, List.cons_append, List.nil_append] <;>
    first
      | exact matchPat_none_AC _
      | exact matchPat_none_TE _
      | exact matchPat_none_head (by decide) (by decide) (by decide) (by decide) (by decide)

-- ===== occurrence of a match anywhere in a string =====

/-- Some pattern occurrence: the string decomposes around a full match. -/
def HasMatch (p : SensPat) (s : Str) : Prop :=
  ∃ pre m post, s = pre ++ m ++ post ∧ IsMatch p m

lemma not_hasMatch_nil {p : SensPat} : ¬ HasMatch p [] := by
  rintro ⟨pre, m, post, h1, h2⟩
  rcases m with _ | ⟨m0, m1⟩
  · exact isMatch_ne_nil h2 rfl
  · simp at h1

lemma hasMatch_cons {p : SensPat} {c : Char} {cs : Str} (h : HasMatch p cs) :
    HasMatch p (c :: cs) := by
  obtain ⟨pre, m, post, h1, h2⟩ := h
  exact ⟨c :: pre, m, post, by rw [h1]; simp, h2⟩

lemma hasMatch_append_left {p : SensPat} (m : Str) {x : Str} (h : HasMatch p x) :
    HasMatch p (m ++ x) := by
  obtain ⟨pre, m', post, h1, h2⟩ := h
  exact ⟨m ++ pre, m', post, by rw [h1]; simp, h2⟩

lemma hasMatch_of_matchPat {p : SensPat} {s r : Str} (h : matchPat p s = some r) :
    HasMatch p s := by
  obtain ⟨m, h1, h2⟩ := matchPat_eq_some_iff.mp h
  exact ⟨[], m, r, by simpa using h1, h2⟩

-- ===== a match absorbing the replacement text yields a shorter head match =====

lemma star_not_in_head {q : SensPat} {k s1 s2 : Str} {q1 : Char} (hk : KwOk q k)
    (hs1 : ∀ c ∈ s1, pyIsSpace c = true) (hs2 : ∀ c ∈ s2, pyIsSpace c = true)
    (hq1 : isQuoteC q1 = true)
    (h : '*' ∈ k ++ (s1 ++ '=' :: (s2 ++ [q1]))) : False := by
  simp only [List.mem_append, List.mem_cons, List.mem_singleton,
    List.not_mem_nil, or_false] at h
  rcases h with hk' | h1 | he | h2 | hq
  · have := kwOk_chars hk '*' hk'
    revert this
    decide
  · exact absurd (hs1 '*' h1) (by decide)
  · exact absurd he (by decide)
  · exact absurd (hs2 '*' h2) (by decide)
  · rw [← hq] at hq1
    exact absurd hq1 (by decide)

/-- If a full match of `q` ends with the replacement text plus `w`, the part
before the replacement text is a keyword, spaces, `=`, spaces and an opening
quote followed by quote-free characters. -/
lemma surgery {q : SensPat} {u w : Str} (h : IsMatch q (u ++ REDACTED ++ w)) :
    ∃ k s1 s2 q1 w1,
      KwOk q k ∧ (∀ c ∈ s1, pyIsSpace c = true) ∧ (∀ c ∈ s2, pyIsSpace c = true) ∧
      isQuoteC q1 = true ∧ (∀ c ∈ w1, isQuoteC c = false) ∧
      u = k ++ (s1 ++ '=' :: (s2 ++ q1 :: w1)) := by
  obtain ⟨k, s1, s2, q1, inner, q2, hk, hs1, hs2, hq1, hq2, hin, hinq, hm⟩ := isMatch_parts h
  have hm' : u ++ (REDACTED ++ w) =
      (k ++ (s1 ++ '=' :: (s2 ++ [q1]))) ++ (inner ++ [q2]) := by
    rw [← List.append_assoc, hm]
    simp [List.append_assoc]
  rcases List.append_eq_append_iff.mp hm' with ⟨t, ht1, ht2⟩ | ⟨t, ht1, ht2⟩
  · rcases t with _ | ⟨t0, t1⟩
    · simp only [List.append_nil] at ht1
      exact ⟨k, s1, s2, q1, [], hk, hs1, hs2, hq1, by simp, ht1.symm⟩
    · exfalso
      rcases List.append_eq_append_iff.mp ht2 with ⟨a, ha1, ha2⟩ | ⟨a, ha1, ha2⟩
      · -- the whole replacement text sits inside the pre-quote head: impossible
        refine star_not_in_head hk hs1 hs2 hq1 ?_
        rw [ht1, ha1]
        exact List.mem_append_right _ (List.mem_append_left _ star_mem_red)
      · -- the head ends with its opening quote, which would lie in the
        -- replacement text: impossible
        have hP : k ++ (s1 ++ '=' :: (s2 ++ [q1])) = (k ++ (s1 ++ '=' :: s2)) ++ [q1] := by
          simp [List.append_assoc]
        rw [hP] at ht1
        have hq1R : q1 ∈ REDACTED := by
          rcases List.append_eq_append_iff.mp ht1 with ⟨b, hb1, hb2⟩ | ⟨b, hb1, hb2⟩
          · rcases b with _ | ⟨b0, b1⟩
            · simp only [List.nil_append] at hb2
              obtain ⟨rfl, rfl⟩ : q1 = t0 ∧ [] = t1 := by simpa using hb2
              rw [ha1]
              exact List.mem_append_left _ (by simp)
            · simp only [List.cons_append, List.cons.injEq] at hb2
              exact absurd hb2.2.symm (by simp)
          · have hmem : q1 ∈ t0 :: t1 := by
              rw [hb2]
              exact List.mem_append_right _ (by simp)
            rw [ha1]
            exact List.mem_append_left _ hmem
        have := red_no_quote q1 hq1R
        rw [hq1] at this
        exact nomatch this
  · rcases List.append_eq_append_iff.mp ht2 with ⟨a, ha1, ha2⟩ | ⟨a, ha1, ha2⟩
    · exfalso
      have := congrArg List.length ha2
      simp only [List.length_append, List.length_singleton] at this
      rw [red_length] at this
      omega
    · refine ⟨k, s1, s2, q1, t, hk, hs1, hs2, hq1, ?_, ?_⟩
      · intro x hx
        exact hinq x (by rw [ha1]; exact List.mem_append_left _ hx)
      · rw [ht1]
        simp [List.append_assoc]

/-- Any full match of `q` ending at a seam of the output of `pySub p`
transfers back to a head match of `q` on the corresponding input. -/
lemma head_match_transfer {p q : SensPat} :
    ∀ s u v post : Str, pySub p s = v ++ post → IsMatch q (u ++ v) →
      ∃ rest, matchPat q (u ++ s) = some rest := by
  intro s
  induction s with
  | nil =>
    intro u v post h1 h2
    rw [pySub_nil] at h1
    obtain ⟨hv, -⟩ := List.append_eq_nil.mp h1.symm
    subst hv
    refine ⟨[], ?_⟩
    simpa using h2
  | cons c cs ih =>
    intro u v post h1 h2
    rcases hmp : matchPat p (c :: cs) with _ | r
    · rw [pySub_cons_none hmp] at h1
      cases v with
      | nil =>
        simp only [List.append_nil] at h2
        exact ⟨c :: cs, isMatch_append h2 (c :: cs)⟩
      | cons v0 v1 =>
        simp only [List.cons_append, List.cons.injEq] at h1
        obtain ⟨hcv, h1'⟩ := h1
        subst hcv
        have h2' : IsMatch q ((u ++ [c]) ++ v1) := by
          rw [List.append_assoc]
          simpa using h2
        obtain ⟨rest, hrest⟩ := ih (u ++ [c]) v1 post h1' h2'
        refine ⟨rest, ?_⟩
        rw [show u ++ (c :: cs) = (u ++ [c]) ++ cs by simp]
        exact hrest
    · rw [pySub_cons_some hmp] at h1
      obtain ⟨m, hcc, himp⟩ := matchPat_eq_some_iff.mp hmp
      rcases List.append_eq_append_iff.mp h1 with ⟨w, hw1, hw2⟩ | ⟨w, hw1, hw2⟩
      · -- the match runs into the replacement text: surgery
        have h2' : IsMatch q ((u ++ REDACTED) ++ w) := by
          rw [hw1, ← List.append_assoc] at h2
          exact h2
        obtain ⟨k, s1, s2, q1, w1, hk, hs1, hs2, hq1, hw1q, hu⟩ := surgery h2'
        obtain ⟨k', s1', s2', q1', inner', q2', hk', hs1', hs2', hq1', hq2', hin', hinq', hmm⟩ :=
          isMatch_parts himp
        have hne : w1 ++ (k' ++ (s1' ++ '=' :: s2')) ≠ [] := by simp
        have hnq : ∀ x ∈ w1 ++ (k' ++ (s1' ++ '=' :: s2')), isQuoteC x = false := by
          intro x hx
          simp only [List.mem_append, List.mem_cons] at hx
          rcases hx with h | h | h | rfl | h
          · exact hw1q x h
          · exact kwOk_not_quote hk' x h
          · exact space_not_quote (hs1' x h)
          · rfl
          · exact space_not_quote (hs2' x h)
        have hb := matchPat_build (inner' ++ q2' :: r) hk hs1 hs2 hq1 hq1' hne hnq
        refine ⟨inner' ++ q2' :: r, ?_⟩
        rw [hcc, hu, hmm, ← hb]
        congr 1
        simp [List.append_assoc]
      · -- the match ends inside the replacement text: its final quote would
        -- have to be a replacement character
        cases v with
        | nil =>
          simp only [List.append_nil] at h2
          exact ⟨c :: cs, isMatch_append h2 (c :: cs)⟩
        | cons v0 v1 =>
          exfalso
          obtain ⟨m0, qc, hm0, hqc⟩ := isMatch_last_quote h2
          have hqcv : qc ∈ v0 :: v1 := by
            rcases List.append_eq_append_iff.mp hm0 with ⟨a, ha1, ha2⟩ | ⟨a, ha1, ha2⟩
            · rw [ha2]
              exact List.mem_append_right _ (by simp)
            · rcases a with _ | ⟨a0, a1⟩
              · simp only [List.nil_append] at ha2
                rw [← ha2]
                simp
              · simp only [List.cons_append, List.cons.injEq] at ha2
                exact absurd ha2.2.symm (by simp)
          have hqcR : qc ∈ REDACTED := by
            rw [hw1]
            exact List.mem_append_left _ hqcv
          have := red_no_quote qc hqcR
          rw [hqc] at this
          exact nomatch this

/-- Any pattern occurrence in the output of `pySub p` is an occurrence of a
different pattern already present in the input. -/
lemma pySub_hasMatch_aux {p q : SensPat} :
    ∀ n, ∀ s : Str, s.length ≤ n → HasMatch q (pySub p s) → q ≠ p ∧ HasMatch q s := by
  intro n
  induction n with
  | zero =>
    intro s hs hm
    have h0 : s = [] := List.length_eq_zero.mp (Nat.le_zero.mp hs)
    subst h0
    rw [pySub_nil] at hm
    exact absurd hm not_hasMatch_nil
  | succ n ih =>
    intro s hs hm
    cases s with
    | nil =>
      rw [pySub_nil] at hm
      exact absurd hm not_hasMatch_nil
    | cons c cs =>
      rcases hmp : matchPat p (c :: cs) with _ | r
      · rw [pySub_cons_none hmp] at hm
        obtain ⟨pre, m', post, heq, him⟩ := hm
        cases pre with
        | nil =>
          simp only [List.nil_append] at heq
          cases m' with
          | nil => exact absurd rfl (isMatch_ne_nil him)
          | cons c0 v' =>
            simp only [List.cons_append, List.cons.injEq] at heq
            obtain ⟨hc0, heq2⟩ := heq
            subst hc0
            have him' : IsMatch q ([c] ++ v') := by simpa using him
            obtain ⟨rest, hrest⟩ := head_match_transfer cs [c] v' post heq2 him'
            have hr' : matchPat q (c :: cs) = some rest := by simpa using hrest
            constructor
            · rintro rfl
              rw [hmp] at hr'
              exact nomatch hr'
            · exact hasMatch_of_matchPat hr'
        | cons a pre' =>
          simp only [List.cons_append, List.cons.injEq] at heq
          obtain ⟨-, heq2⟩ := heq
          obtain ⟨hqp, hm2⟩ := ih cs (by simp only [List.length_cons] at hs; omega)
            ⟨pre', m', post, heq2, him⟩
          exact ⟨hqp, hasMatch_cons hm2⟩
      · rw [pySub_cons_some hmp] at hm
        obtain ⟨m, hcc, -⟩ := matchPat_eq_some_iff.mp hmp
        obtain ⟨pre, m', post, heq, him⟩ := hm
        rw [List.append_assoc] at heq
        have hlen : r.length ≤ n := by
          have := matchPat_length hmp
          simp only [List.length_cons] at this hs
          omega
        have tail_case : HasMatch q (pySub p r) → q ≠ p ∧ HasMatch q (c :: cs) := by
          intro hmr
          obtain ⟨hqp, hm2⟩ := ih r hlen hmr
          refine ⟨hqp, ?_⟩
          rw [hcc]
          exact hasMatch_append_left m hm2
        rcases List.append_eq_append_iff.mp heq with ⟨w, hw1, hw2⟩ | ⟨w, hw1, hw2⟩
        · exact tail_case ⟨w, m', post, by rw [hw2, List.append_assoc], him⟩
        · rcases w with _ | ⟨w0, w1⟩
          · exact tail_case ⟨[], m', post, by simpa using hw2.symm, him⟩
          · exfalso
            have hsome : matchPat q (m' ++ post) = some post := isMatch_append him post
            rw [hw2] at hsome
            have hdrop : REDACTED.drop pre.length = w0 :: w1 := by
              rw [hw1]
              exact List.drop_left pre (w0 :: w1)
            have hplen : pre.length < 14 := by
              have := congrArg List.length hw1
              simp only [List.length_append, List.length_cons] at this
              rw [red_length] at this
              omega
            have := red_drop_nomatch q hplen (pySub p r)
            rw [hdrop] at this
            rw [this] at hsome
            exact nomatch hsome

lemma pySub_hasMatch {p q : SensPat} {s : Str} (h : HasMatch q (pySub p s)) :
    q ≠ p ∧ HasMatch q s :=
  pySub_hasMatch_aux s.length s le_rfl h

lemma pySub_id_of_no_match {p : SensPat} {s : Str} (h : ¬ HasMatch p s) :
    pySub p s = s := by
  induction s with
  | nil => exact pySub_nil p
  | cons c cs ih =>
    rcases hmp : matchPat p (c :: cs) with _ | r
    · rw [pySub_cons_none hmp, ih (fun hm => h (hasMatch_cons hm))]
    · exact absurd (hasMatch_of_matchPat hmp) h

-- ===== executable occurrence test =====

/-- Boolean scan: does one of the five regexes match anywhere in `s`? -/
def hasMatchB (p : SensPat) : Str → Bool
  | [] => false
  | c :: cs => (matchPat p (c :: cs)).isSome || hasMatchB p cs

lemma hasMatchB_iff {p : SensPat} {s : Str} : hasMatchB p s = true ↔ HasMatch p s := by
  induction s with
  | nil =>
    simp only [hasMatchB, Bool.false_eq_true, false_iff]
    exact not_hasMatch_nil
  | cons c cs ih =>
    simp only [hasMatchB, Bool.or_eq_true, Option.isSome_iff_exists, ih]
    constructor
    · rintro (⟨r, hr⟩ | h)
      · exact hasMatch_of_matchPat hr
      · exact hasMatch_cons h
    · rintro ⟨pre, m, post, h1, h2⟩
      cases pre with
      | nil =>
        simp only [List.nil_append] at h1
        exact Or.inl ⟨post, by rw [h1]; exact isMatch_append h2 post⟩
      | cons a pre' =>
        simp only [List.cons_append, List.cons.injEq] at h1
        exact Or.inr ⟨pre', m, post, h1.2, h2⟩

/-- Boolean test: `s` contains none of the five sensitive-credential patterns
exactly when this is `false`. -/
def cleanB (s : Str) : Bool :=
  hasMatchB .apikey s || hasMatchB .password s || hasMatchB .secret s ||
    hasMatchB .token s || hasMatchB .key s

lemma cleanB_spec {s : Str} (h : cleanB s = false) : ∀ q : SensPat, ¬ HasMatch q s := by
  simp only [cleanB, Bool.or_eq_false_iff] at h
  obtain ⟨⟨⟨⟨h1, h2⟩, h3⟩, h4⟩, h5⟩ := h
  intro q
  rw [← hasMatchB_iff]
  cases q <;> simp [h1, h2, h3, h4, h5]

-- ===== main theorem =====

lemma sanitize_code_no_match (code : Str) :
    ∀ q : SensPat, ¬ HasMatch q (sanitize_code code) := by
  intro q hq
  unfold sanitize_code at hq
  obtain ⟨n1, hq⟩ := pySub_hasMatch hq
  obtain ⟨n2, hq⟩ := pySub_hasMatch hq
  obtain ⟨n3, hq⟩ := pySub_hasMatch hq
  obtain ⟨n4, hq⟩ := pySub_hasMatch hq
  obtain ⟨n5, hq⟩ := pySub_hasMatch hq
  cases q
  · exact n5 rfl
  · exact n4 rfl
  · exact n3 rfl
  · exact n2 rfl
  · exact n1 rfl

lemma sanitize_code_id_of_no_match {s : Str} (h : ∀ q : SensPat, ¬ HasMatch q s) :
    sanitize_code s = s := by
  unfold sanitize_code
  rw [pySub_id_of_no_match (h .apikey), pySub_id_of_no_match (h .password),
    pySub_id_of_no_match (h .secret), pySub_id_of_no_match (h .token),
    pySub_id_of_no_match (h .key)]

/-- C10: `sanitize_code` is idempotent, and an input containing no occurrence
of any of the five sensitive-credential patterns (key-like word, `=`, quoted
literal) is returned unchanged. -/
theorem c10_sanitize_idempotent (code : Str) :
    sanitize_code (sanitize_code code) = sanitize_code code ∧
    (cleanB code = false → sanitize_code code = code) :=
  ⟨sanitize_code_id_of_no_match (sanitize_code_no_match code),
    fun h => sanitize_code_id_of_no_match (cleanB_spec h)⟩

/-- Witness for C10 at a concrete input. -/
theorem c10_sanitize_idempotent_witness :
    cleanB ['x', '=', '1'] = false ∧
      (sanitize_code (sanitize_code ['x', '=', '1']) = sanitize_code ['x', '=', '1'] ∧
        sanitize_code ['x', '=', '1'] = ['x', '=', '1']) :=
  ⟨by decide, (c10_sanitize_idempotent ['x', '=', '1']).1,
    (c10_sanitize_idempotent ['x', '=', '1']).2 (by decide)⟩
